import Mathlib

/-!
# The idb test harness (cmd/idbtest/idbtest.go)

A shallow embedding of the query checks of the harness: the three print-query
operations with their limit check, and the transaction paging test.

The store (package idb) is outside the harness.  A result channel is a finite
list of rows, and a store is a function from a query to the rows delivered.
-/

namespace Idbtest

/-! ## Data model -/

/-- Filter of a transaction query (idb.TransactionFilter), with the fields the harness sets. -/
structure TransactionFilter where
  Address : List Nat := []
  AddressRole : Nat := 0
  MinRound : Nat := 0
  MaxRound : Nat := 0
  AssetId : Nat := 0
  TypeEnum : Nat := 0
  Offset : Option Nat := none
  SigType : String := ""
  NotePrefix : List Nat := []
  MinAlgos : Nat := 0
  EffectiveAmountGt : Nat := 0
  EffectiveAmountLt : Nat := 0
  MinAssetAmount : Nat := 0
  MaxAssetAmount : Nat := 0
  Limit : Nat := 0
  NextToken : String := ""
deriving DecidableEq, Repr

/-- Asset query (idb.AssetsQuery), with the fields the harness sets. -/
structure AssetsQuery where
  Query : String := ""
  Name : String := ""
  Unit : String := ""
  AssetId : Nat := 0
  AssetIdGreaterThan : Nat := 0
  Creator : List Nat := []
  Limit : Nat := 0
deriving DecidableEq, Repr

/-- Account query (idb.AccountQueryOptions), with the fields the harness sets. -/
structure AccountQueryOptions where
  IncludeAssetHoldings : Bool := false
  IncludeAssetParams : Bool := false
  AlgosGreaterThan : Nat := 0
  HasAssetId : Nat := 0
  Limit : Nat := 0
deriving DecidableEq, Repr

/-- Row of a transaction stream (idb.TxnRow): the fields the harness reads. -/
structure TxnRow where
  Round : Nat
  RoundTime : Int := 0
  Intra : Int
  TxnBytes : List Nat := []
  Error : Option String := none
deriving DecidableEq, Repr

/-- Row of an asset stream (idb.AssetRow): the fields the harness reads. -/
structure AssetRow where
  AssetId : Nat
  Creator : List Nat := []
  Params : List Nat := []
  Error : Option String := none
deriving DecidableEq, Repr

/-- Row of an account stream (idb.AccountRow): the fields the harness reads. -/
structure AccountRow where
  Account : List Nat := []
  Error : Option String := none
deriving DecidableEq, Repr

/-- The store interface (idb.IndexerDb) as the harness uses it: each query
yields the finite sequence of rows its channel delivers. -/
structure IndexerDb where
  Transactions : TransactionFilter → List TxnRow
  Assets : AssetsQuery → List AssetRow
  GetAccounts : AccountQueryOptions → List AccountRow

/-- The encoding steps of the print operations, which live in other packages:
the error of json.Marshal on asset params and on an account, the error of
msgpack.Decode on the transaction bytes, and whether MustEncode panics on the
decoded transaction. -/
structure Codecs where
  marshalParams : List Nat → Option String
  marshalAccount : List Nat → Option String
  decodeTxn : List Nat → Option String
  encodePanics : List Nat → Bool

/-- How a run of a harness operation ends: it returns with the new value of
the global exitValue, the process exits through os.Exit with a status, or the
run panics. -/
inductive Proc where
  | returned (exitValue : Int)
  | exited (status : Int)
  | panicked
deriving DecidableEq, Repr

/-! ## The print-query operations -/

/-- The range loop of printAssetQuery; count is a uint64. -/
def assetRows (c : Codecs) : List AssetRow → Nat → Option Nat
  | [], count => some count
  | ar :: rest, count =>
    match ar.Error with
    | some _ => none
    | none =>
      match c.marshalParams ar.Params with
      | some _ => none
      | none => assetRows c rest ((count + 1) % 2 ^ 64)

/-- printAssetQuery: maybeFail ends the process with status 1. -/
def printAssetQuery (c : Codecs) (db : IndexerDb) (q : AssetsQuery) (exitValue : Int) : Proc :=
  match assetRows c (db.Assets q) 0 with
  | none => Proc.exited 1
  | some count =>
    if q.Limit ≠ 0 ∧ q.Limit ≠ count then Proc.returned 1 else Proc.returned exitValue

/-- The range loop of printAccountQuery; count is a uint64. -/
def accountRows (c : Codecs) : List AccountRow → Nat → Option Nat
  | [], count => some count
  | ar :: rest, count =>
    match ar.Error with
    | some _ => none
    | none =>
      match c.marshalAccount ar.Account with
      | some _ => none
      | none => accountRows c rest ((count + 1) % 2 ^ 64)

/-- printAccountQuery: maybeFail ends the process with status 1. -/
def printAccountQuery (c : Codecs) (db : IndexerDb) (q : AccountQueryOptions)
    (exitValue : Int) : Proc :=
  match accountRows c (db.GetAccounts q) 0 with
  | none => Proc.exited 1
  | some count =>
    if q.Limit ≠ 0 ∧ q.Limit ≠ count then Proc.returned 1 else Proc.returned exitValue

/-- The range loop of printTxnQuery; count is a uint64.  The loop ends the
process (status 1) at a row error or a decode error, and panics when
MustEncode does. -/
def txnRows (c : Codecs) : List TxnRow → Nat → Except Proc Nat
  | [], count => Except.ok count
  | txnrow :: rest, count =>
    match txnrow.Error with
    | some _ => Except.error (Proc.exited 1)
    | none =>
      match c.decodeTxn txnrow.TxnBytes with
      | some _ => Except.error (Proc.exited 1)
      | none =>
        if c.encodePanics txnrow.TxnBytes then Except.error Proc.panicked
        else txnRows c rest ((count + 1) % 2 ^ 64)

/-- printTxnQuery. -/
def printTxnQuery (c : Codecs) (db : IndexerDb) (q : TransactionFilter) (exitValue : Int) : Proc :=
  match txnRows c (db.Transactions q) 0 with
  | Except.error p => p
  | Except.ok count =>
    if q.Limit ≠ 0 ∧ q.Limit ≠ count then Proc.returned 1 else Proc.returned exitValue

/-! ## The paging test -/

/-- The pair kept of each row of the one-shot query ("like TxnRow"). -/
structure roundIntra where
  Round : Nat
  Intra : Int
deriving DecidableEq, Repr

/-- The pair recorded for a row. -/
def riOf (txnrow : TxnRow) : roundIntra := ⟨txnrow.Round, txnrow.Intra⟩

/-- How the inner range loop over one page ends. -/
inductive PageEnd where
  | drained
  | broke
  | indexOutOfRange
deriving DecidableEq, Repr

/-- Locals after the inner loop over one page.  The field accesses is a
history variable: each evaluation of all[pos], with the index and the row it
is compared with, in order. -/
structure PageScan where
  pos : Nat
  exitValue : Int
  next : String
  any : Bool
  accesses : List (Nat × TxnRow)
  ending : PageEnd
deriving DecidableEq, Repr

/-- The inner loop of testTxnPaging over the rows of one page.  Next is the
method TxnRow.Next of the store package. -/
def scanPage (Next : TxnRow → String) (all : List roundIntra) :
    List TxnRow → Nat → Int → String → Bool → List (Nat × TxnRow) → PageScan
  | [], pos, exitValue, next, any, acc => ⟨pos, exitValue, next, any, acc, PageEnd.drained⟩
  | txnrow :: rest, pos, exitValue, next, _, acc =>
    match all[pos]? with
    | none => ⟨pos, exitValue, next, true, acc ++ [(pos, txnrow)], PageEnd.indexOutOfRange⟩
    | some ri =>
      let ev1 := if ri.Round ≠ txnrow.Round then 1 else exitValue
      let ev2 := if ri.Intra ≠ txnrow.Intra then 1 else ev1
      if pos + 1 = all.length then
        ⟨pos + 1, ev2, next, false, acc ++ [(pos, txnrow)], PageEnd.broke⟩
      else
        scanPage Next all rest (pos + 1) ev2 (Next txnrow) true (acc ++ [(pos, txnrow)])

/-- Locals of testTxnPaging at the head of the outer loop.  The fields
queries and accesses are history variables: the filters passed to
db.Transactions by the loop, and the evaluations of all[pos], in order. -/
structure PagingState where
  q : TransactionFilter
  pos : Nat
  page : Nat
  exitValue : Int
  queries : List TransactionFilter
  accesses : List (Nat × TxnRow)
deriving DecidableEq, Repr

/-- How the outer loop ends: it is left, the run panics at all[pos], or the
iteration budget of the model is used up. -/
inductive LoopEnd where
  | left
  | indexOutOfRange
  | outOfFuel
deriving DecidableEq, Repr

/-- One iteration of the outer loop: none when the loop goes on (any is true). -/
def pageIter (db : IndexerDb) (Next : TxnRow → String) (all : List roundIntra)
    (st : PagingState) : Option LoopEnd × PagingState :=
  let sc := scanPage Next all (db.Transactions st.q) st.pos st.exitValue "" false st.accesses
  match sc.ending with
  | PageEnd.indexOutOfRange =>
    (some LoopEnd.indexOutOfRange,
      ⟨st.q, sc.pos, st.page, sc.exitValue, st.queries ++ [st.q], sc.accesses⟩)
  | _ =>
    (if sc.any then none else some LoopEnd.left,
      ⟨{ st.q with NextToken := sc.next }, sc.pos, st.page + 1, sc.exitValue,
        st.queries ++ [st.q], sc.accesses⟩)

/-- The outer loop of testTxnPaging, with an iteration budget. -/
def pagingLoop (db : IndexerDb) (Next : TxnRow → String) (all : List roundIntra) :
    Nat → PagingState → LoopEnd × PagingState
  | 0, st => (LoopEnd.outOfFuel, st)
  | fuel + 1, st =>
    match pageIter db Next all st with
    | (some e, st1) => (e, st1)
    | (none, st1) => pagingLoop db Next all fuel st1

/-- What a run of testTxnPaging leaves. -/
structure PagingResult where
  ending : LoopEnd
  all : List roundIntra
  limit : Nat
  pos : Nat
  page : Nat
  exitValue : Int
  queries : List TransactionFilter
  accesses : List (Nat × TxnRow)
deriving DecidableEq, Repr

/-- The one-shot sequence of testTxnPaging. -/
def oneShot (db : IndexerDb) (q : TransactionFilter) : List roundIntra :=
  (db.Transactions { q with Limit := 1000 }).map riOf

/-- The page size of testTxnPaging. -/
def pageLimit (all : List roundIntra) : Nat := all.length / 3 + 1

/-- testTxnPaging.  A Go slice has fewer than 2^63 elements, so that pos, page
and the page size do not wrap.  The budget of the loop is len(all) + 1. -/
def testTxnPaging (db : IndexerDb) (Next : TxnRow → String) (q : TransactionFilter)
    (exitValue : Int) : PagingResult :=
  let q1 := { q with Limit := 1000 }
  let all := (db.Transactions q1).map riOf
  let q2 := { q1 with Limit := all.length / 3 + 1 }
  let r := pagingLoop db Next all (all.length + 1) ⟨q2, 0, 0, exitValue, [], []⟩
  let ev := match r.1 with
    | LoopEnd.left => if r.2.pos ≠ all.length then 1 else r.2.exitValue
    | _ => r.2.exitValue
  ⟨r.1, all, q2.Limit, r.2.pos, r.2.page, ev, r.2.queries, r.2.accesses⟩

/-! ## Definitions used to state and prove the properties -/

/-- Whether the row of an access differs from the recorded pair in Round or in Intra. -/
def mismatch (all : List roundIntra) (a : Nat × TxnRow) : Bool :=
  match all[a.1]? with
  | some ri => decide (ri.Round ≠ a.2.Round ∨ ri.Intra ≠ a.2.Intra)
  | none => false

/-- The exit value after the comparisons of a list of accesses. -/
def evAfter (all : List roundIntra) (ev : Int) (acc : List (Nat × TxnRow)) : Int :=
  if acc.any (mismatch all) = true then 1 else ev

/-- The token after a run of rows: Next of the last one, if any. -/
def lastTok (Next : TxnRow → String) (next : String) (rows : List TxnRow) : String :=
  match rows.getLast? with
  | some r => Next r
  | none => next

/-- The locals after a page of which the rows cmp were compared and the rows
toks gave their token. -/
def afterRows (Next : TxnRow → String) (all : List roundIntra) (st : PagingState)
    (cmp toks : List TxnRow) : PagingState :=
  ⟨{ st.q with NextToken := lastTok Next "" toks }, st.pos + cmp.length, st.page + 1,
    evAfter all st.exitValue (cmp.enumFrom st.pos), st.queries ++ [st.q],
    st.accesses ++ cmp.enumFrom st.pos⟩

/-- The locals when the run panics at the first row of a page. -/
def afterPanic (st : PagingState) (row : TxnRow) : PagingState :=
  ⟨st.q, st.pos, st.page, st.exitValue, st.queries ++ [st.q], st.accesses ++ [(st.pos, row)]⟩

/-- The filter of the k-th page query when every earlier page let the loop
go on: the first is q0, and each later one carries the token left by the
page before it. -/
def pageQuery (db : IndexerDb) (Next : TxnRow → String) (q0 : TransactionFilter) :
    Nat → TransactionFilter
  | 0 => q0
  | k + 1 =>
    { pageQuery db Next q0 k with
      NextToken := lastTok Next "" (db.Transactions (pageQuery db Next q0 k)) }

/-- The locals on entry of the outer loop. -/
def initState (q0 : TransactionFilter) (ev0 : Int) : PagingState := ⟨q0, 0, 0, ev0, [], []⟩

/-- The rows of all pages queried so far, in order. -/
def pagesOf (db : IndexerDb) (st : PagingState) : List TxnRow :=
  st.queries.flatMap db.Transactions

/-- Invariant of the outer loop, at its head. -/
structure LoopInv (db : IndexerDb) (Next : TxnRow → String) (all : List roundIntra)
    (q0 : TransactionFilter) (ev0 : Int) (st : PagingState) : Prop where
  inRange : st.pos < all.length ∨ st = initState q0 ev0
  cur : st.q = pageQuery db Next q0 st.page
  asked : st.queries = (List.range st.page).map (pageQuery db Next q0)
  nonempty : ∀ k, k < st.page → db.Transactions (pageQuery db Next q0 k) ≠ []
  seen : st.accesses = (pagesOf db st).enumFrom 0
  posEq : st.pos = (pagesOf db st).length
  evEq : st.exitValue = evAfter all ev0 st.accesses
  pageLe : st.page ≤ st.pos

/-- What holds when the outer loop has ended. -/
structure LoopPost (db : IndexerDb) (Next : TxnRow → String) (all : List roundIntra)
    (q0 : TransactionFilter) (ev0 : Int) (e : LoopEnd) (st : PagingState) : Prop where
  ended : e ≠ LoopEnd.outOfFuel
  asked : st.queries = (List.range st.queries.length).map (pageQuery db Next q0)
  askedPos : 0 < st.queries.length
  nonempty : ∀ k, k + 1 < st.queries.length → db.Transactions (pageQuery db Next q0 k) ≠ []
  seen : st.accesses = ((pagesOf db st).take st.accesses.length).enumFrom 0
  pageEq : e = LoopEnd.left → st.page = st.queries.length
  posEq : e = LoopEnd.left → st.pos = st.accesses.length
  posLe : e = LoopEnd.left → st.pos ≤ all.length
  evEq : e = LoopEnd.left → st.exitValue = evAfter all ev0 st.accesses
  pageLe : e = LoopEnd.left → st.page ≤ max all.length 1
  stop : e = LoopEnd.left →
    st.pos = all.length ∨ db.Transactions (pageQuery db Next q0 (st.page - 1)) = []
  panic : e = LoopEnd.indexOutOfRange → all.length = 0 ∧ st.pos = 0 ∧ st.page = 0 ∧
    st.exitValue = ev0 ∧ st.queries = [q0] ∧
    ∃ row rest, db.Transactions q0 = row :: rest ∧ st.accesses = [(0, row)]

/-- The row of an access differs from the pair recorded at its index in Round
or in Intra. -/
def Differs (all : List roundIntra) (a : Nat × TxnRow) : Prop :=
  ∃ ri, all[a.1]? = some ri ∧ (ri.Round ≠ a.2.Round ∨ ri.Intra ≠ a.2.Intra)

/-- The filter of the first page query of testTxnPaging. -/
def firstQuery (db : IndexerDb) (q : TransactionFilter) : TransactionFilter :=
  { q with Limit := pageLimit (oneShot db q) }

/-- The run of the outer loop inside testTxnPaging. -/
def loopRun (db : IndexerDb) (Next : TxnRow → String) (q : TransactionFilter) (ev0 : Int) :
    LoopEnd × PagingState :=
  pagingLoop db Next (oneShot db q) ((oneShot db q).length + 1)
    (initState (firstQuery db q) ev0)

/-- The filters main passes to testTxnPaging, for the decoded address xa. -/
def pagingFilters (xa : List Nat) : List TransactionFilter :=
  [{ Address := xa }, { TypeEnum := 2 }, { MinAlgos := 2 }]

/-- What the paging test reads of a row: Round, Intra and the value of Next(). -/
def keyOf (Next : TxnRow → String) (r : TxnRow) : Nat × Int × String :=
  (r.Round, r.Intra, Next r)

/-- Two states of the outer loop with the same locals and the same page
queries so far; the rows they have seen may differ. -/
def SameLocals (st1 st2 : PagingState) : Prop :=
  st1.q = st2.q ∧ st1.pos = st2.pos ∧ st1.page = st2.page ∧
    st1.exitValue = st2.exitValue ∧ st1.queries = st2.queries

/-- The end of an iteration of the outer loop, from the locals the inner loop left. -/
def closePage (st : PagingState) (sc : PageScan) : Option LoopEnd × PagingState :=
  match sc.ending with
  | PageEnd.indexOutOfRange =>
    (some LoopEnd.indexOutOfRange,
      ⟨st.q, sc.pos, st.page, sc.exitValue, st.queries ++ [st.q], sc.accesses⟩)
  | _ =>
    (if sc.any then none else some LoopEnd.left,
      ⟨{ st.q with NextToken := sc.next }, sc.pos, st.page + 1, sc.exitValue,
        st.queries ++ [st.q], sc.accesses⟩)

/-- A store that resumes: for the filter q and a sequence S of rows, a query
q with Limit L > 0 yields the first L rows of S, and with the token of the row
S[i] it yields the L rows after S[i], both cut at the end of S. -/
def Resumes (db : IndexerDb) (Next : TxnRow → String) (q : TransactionFilter)
    (S : List TxnRow) : Prop :=
  (∀ L, 0 < L → db.Transactions { q with Limit := L } = S.take L) ∧
  (∀ (i : Nat) (h : i < S.length) (L : Nat), 0 < L →
    db.Transactions { q with Limit := L, NextToken := Next (S.get ⟨i, h⟩) }
      = (S.drop (i + 1)).take L)

/-- Pagination equivalence of a store for the filter q and the sequence S: q
with Limit L > 0 and an empty NextToken yields the first L rows of S, and with
the token of the row S[i] it yields the L rows after S[i], both cut at the end
of S. -/
def Paginates (db : IndexerDb) (Next : TxnRow → String) (q : TransactionFilter)
    (S : List TxnRow) : Prop :=
  (∀ L, 0 < L → db.Transactions { q with Limit := L, NextToken := "" } = S.take L) ∧
  (∀ (i : Nat) (h : i < S.length) (L : Nat), 0 < L →
    db.Transactions { q with Limit := L, NextToken := Next (S.get ⟨i, h⟩) }
      = (S.drop (i + 1)).take L)

/-- The quotient n / P rounded up. -/
def ceilDiv (n P : Nat) : Nat := (n + P - 1) / P

/-- Invariant of the outer loop against a store that resumes over S, with the
page size P. -/
structure ResumeInv (db : IndexerDb) (q : TransactionFilter) (S : List TxnRow)
    (all : List roundIntra) (P : Nat) (ev0 : Int) (st : PagingState) : Prop where
  evEq : st.exitValue = ev0
  posEq : st.pos = st.page * P
  inRange : st.pos < all.length ∨ (all.length = 0 ∧ st.pos = 0 ∧ st.page = 0)
  rows : db.Transactions st.q = (S.drop st.pos).take P
  shape : ∃ t, st.q = { q with Limit := P, NextToken := t }

/-- What holds when the outer loop has ended against a store that resumes. -/
def ResumePost (all : List roundIntra) (P : Nat) (ev0 : Int) (e : LoopEnd)
    (st : PagingState) : Prop :=
  e = LoopEnd.left ∧ st.pos = all.length ∧ st.exitValue = ev0 ∧
    ((all.length = 0 ∧ st.page = 1) ∨
      ∃ k, st.page = k + 1 ∧ k * P < all.length ∧ all.length ≤ (k + 1) * P)

/-- A sample Next(): the token of a row is Round + 1 letters. -/
def unaryNext (r : TxnRow) : String := String.mk (List.replicate (r.Round + 1) 'x')

/-- A sample sequence of m rows, the i-th with Round = i. -/
def ledger (m : Nat) : List TxnRow :=
  (List.range m).map (fun i => ({ Round := i, Intra := 0 } : TxnRow))

/-- A sample store over the rows of ledger m that honours Limit (0 is
unbounded) and resumes after the row a token of unaryNext names; it holds m
assets and m accounts. -/
def ledgerDb (m : Nat) : IndexerDb where
  Transactions := fun f =>
    if f.Limit = 0 then (ledger m).drop f.NextToken.length
    else ((ledger m).drop f.NextToken.length).take f.Limit
  Assets := fun f =>
    let rows := (List.range m).map (fun i => ({ AssetId := i } : AssetRow))
    if f.Limit = 0 then rows else rows.take f.Limit
  GetAccounts := fun f =>
    let rows := (List.range m).map (fun i => ({ Account := [i] } : AccountRow))
    if f.Limit = 0 then rows else rows.take f.Limit

/-- A sample store that paginates the empty sequence from the start and
answers a token it never issued with a row that depends on Limit. -/
def staleDb : IndexerDb where
  Transactions := fun f =>
    if f.NextToken = "" then []
    else if f.Limit = 1000 then [{ Round := 1, Intra := 0 }]
    else [{ Round := 2, Intra := 0 }]
  Assets := fun _ => []
  GetAccounts := fun _ => []

/-- A filter that carries a token staleDb never issued. -/
def staleQuery : TransactionFilter := { NextToken := "x" }

/-- No row of an asset stream carries an Error or fails to marshal. -/
def CleanAssets (c : Codecs) (rows : List AssetRow) : Prop :=
  ∀ ar ∈ rows, ar.Error = none ∧ c.marshalParams ar.Params = none

/-- No row of an account stream carries an Error or fails to marshal. -/
def CleanAccounts (c : Codecs) (rows : List AccountRow) : Prop :=
  ∀ ar ∈ rows, ar.Error = none ∧ c.marshalAccount ar.Account = none

/-- No row of a transaction stream carries an Error, fails to decode or makes
the encoder panic. -/
def CleanTxns (c : Codecs) (rows : List TxnRow) : Prop :=
  ∀ txnrow ∈ rows, txnrow.Error = none ∧ c.decodeTxn txnrow.TxnBytes = none ∧
    c.encodePanics txnrow.TxnBytes = false

/-- Sample codecs that never fail. -/
def plainCodecs : Codecs := ⟨fun _ => none, fun _ => none, fun _ => none, fun _ => false⟩

/-- A store honours Limit for the filter q and the matching rows S: Limit 0
yields all of S and Limit L > 0 its first L rows. -/
def HonoursLimit (db : IndexerDb) (q : TransactionFilter) (S : List TxnRow) : Prop :=
  ∀ L, db.Transactions { q with Limit := L } = if L = 0 then S else S.take L

/-- A sample store whose one-shot stream has three rows and whose pages are
empty. -/
def shortDb : IndexerDb where
  Transactions := fun f => if f.Limit = 1000 then ledger 3 else []
  Assets := fun _ => []
  GetAccounts := fun _ => []

/-- A sample store with the rows of ledgerDb, each carrying an Error and
other bytes. -/
def failingDb (m : Nat) : IndexerDb where
  Transactions := fun f =>
    ((ledgerDb m).Transactions f).map
      (fun r => { r with TxnBytes := [1], Error := some "row error" })
  Assets := fun _ => []
  GetAccounts := fun _ => []

/-! ## The inner loop and the proof rule of the outer loop -/

theorem evAfter_nil (all : List roundIntra) (ev : Int) : evAfter all ev [] = ev := by
  simp [evAfter]

theorem evAfter_cons (all : List roundIntra) (ev : Int) (pos : Nat) (row : TxnRow)
    (ri : roundIntra) (h : all[pos]? = some ri) (rest : List (Nat × TxnRow)) :
    evAfter all (if ri.Intra ≠ row.Intra then 1 else if ri.Round ≠ row.Round then 1 else ev) rest
      = evAfter all ev ((pos, row) :: rest) := by
  simp only [evAfter, List.any_cons, mismatch, h]
  by_cases h1 : ri.Round = row.Round <;> by_cases h2 : ri.Intra = row.Intra <;>
    by_cases h3 : rest.any (mismatch all) = true <;> simp [h1, h2, h3]

theorem evAfter_append (all : List roundIntra) (ev : Int) (a b : List (Nat × TxnRow)) :
    evAfter all (evAfter all ev a) b = evAfter all ev (a ++ b) := by
  simp only [evAfter, List.any_append]
  by_cases h1 : a.any (mismatch all) = true <;> by_cases h2 : b.any (mismatch all) = true <;>
    simp [h1, h2]

theorem lastTok_cons (Next : TxnRow → String) (next : String) (row : TxnRow)
    (rest : List TxnRow) :
    lastTok Next (Next row) rest = lastTok Next next (row :: rest) := by
  cases rest with
  | nil => simp [lastTok]
  | cons b t =>
    have h : (b :: t).getLast? = some ((b :: t).getLast (by simp)) :=
      List.getLast?_eq_getLast _ _
    simp only [lastTok, List.getLast?_cons_cons, h]

theorem scanPage_drained (Next : TxnRow → String) (all : List roundIntra) :
    ∀ (rows : List TxnRow) (pos : Nat) (ev : Int) (next : String) (any : Bool)
      (acc : List (Nat × TxnRow)), pos + rows.length < all.length →
      scanPage Next all rows pos ev next any acc =
        ⟨pos + rows.length, evAfter all ev (rows.enumFrom pos), lastTok Next next rows,
          (if rows = [] then any else true), acc ++ rows.enumFrom pos, PageEnd.drained⟩ := by
  intro rows
  induction rows with
  | nil => intro pos ev next any acc _; simp [scanPage, evAfter_nil, lastTok]
  | cons row rest ih =>
    intro pos ev next any acc h
    simp only [List.length_cons] at h
    have hp : pos < all.length := by omega
    have hget : all[pos]? = some all[pos] := List.getElem?_eq_getElem hp
    have hne : ¬ (pos + 1 = all.length) := by omega
    rw [scanPage]
    simp only [hget, hne, if_false]
    rw [ih (pos + 1) _ _ _ _ (by omega)]
    rw [evAfter_cons all ev pos row _ hget, lastTok_cons Next next row rest]
    simp [List.enumFrom_cons, Nat.add_assoc, Nat.add_comm 1]

theorem scanPage_broke (Next : TxnRow → String) (all : List roundIntra) :
    ∀ (rows : List TxnRow) (pos : Nat) (ev : Int) (next : String) (any : Bool)
      (acc : List (Nat × TxnRow)), pos < all.length → all.length ≤ pos + rows.length →
      scanPage Next all rows pos ev next any acc =
        ⟨all.length, evAfter all ev ((rows.take (all.length - pos)).enumFrom pos),
          lastTok Next next (rows.take (all.length - pos - 1)),
          false, acc ++ (rows.take (all.length - pos)).enumFrom pos, PageEnd.broke⟩ := by
  intro rows
  induction rows with
  | nil => intro pos ev next any acc h1 h2; simp at h2; omega
  | cons row rest ih =>
    intro pos ev next any acc hp h
    simp only [List.length_cons] at h
    have hget : all[pos]? = some all[pos] := List.getElem?_eq_getElem hp
    rw [scanPage]
    simp only [hget]
    by_cases hlast : pos + 1 = all.length
    · have h1 : all.length - pos = 1 := by omega
      simp only [hlast, if_true, h1, List.take_succ_cons, List.take_zero, Nat.sub_self,
        List.enumFrom_cons, List.enumFrom_nil]
      rw [← evAfter_cons all ev pos row _ hget, evAfter_nil]
      simp [lastTok]
    · simp only [hlast, if_false]
      rw [ih (pos + 1) _ _ _ _ (by omega) (by omega)]
      have h1 : all.length - pos = (all.length - (pos + 1)) + 1 := by omega
      have h2 : all.length - pos - 1 = (all.length - (pos + 1) - 1) + 1 := by omega
      rw [h2, h1, List.take_succ_cons, List.take_succ_cons, List.enumFrom_cons,
        evAfter_cons all ev pos row _ hget, lastTok_cons Next next row]
      simp

theorem scanPage_outOfRange (Next : TxnRow → String) (all : List roundIntra)
    (row : TxnRow) (rest : List TxnRow) (pos : Nat) (ev : Int) (next : String) (any : Bool)
    (acc : List (Nat × TxnRow)) (h : all.length ≤ pos) :
    scanPage Next all (row :: rest) pos ev next any acc =
      ⟨pos, ev, next, true, acc ++ [(pos, row)], PageEnd.indexOutOfRange⟩ := by
  have hget : all[pos]? = none := List.getElem?_eq_none h
  rw [scanPage]
  simp [hget]

theorem pageIter_empty (db : IndexerDb) (Next : TxnRow → String) (all : List roundIntra)
    (st : PagingState) (h : db.Transactions st.q = []) :
    pageIter db Next all st = (some LoopEnd.left, afterRows Next all st [] []) := by
  simp [pageIter, h, scanPage, afterRows, evAfter_nil, lastTok]

theorem pageIter_more (db : IndexerDb) (Next : TxnRow → String) (all : List roundIntra)
    (st : PagingState) (hne : db.Transactions st.q ≠ [])
    (h : st.pos + (db.Transactions st.q).length < all.length) :
    pageIter db Next all st
      = (none, afterRows Next all st (db.Transactions st.q) (db.Transactions st.q)) := by
  simp [pageIter, scanPage_drained Next all _ _ _ _ _ _ h, hne, afterRows]

theorem pageIter_last (db : IndexerDb) (Next : TxnRow → String) (all : List roundIntra)
    (st : PagingState) (hp : st.pos < all.length)
    (h : all.length ≤ st.pos + (db.Transactions st.q).length) :
    pageIter db Next all st
      = (some LoopEnd.left, afterRows Next all st
          ((db.Transactions st.q).take (all.length - st.pos))
          ((db.Transactions st.q).take (all.length - st.pos - 1))) := by
  have hl : st.pos + min (all.length - st.pos) (db.Transactions st.q).length = all.length := by
    omega
  simp [pageIter, scanPage_broke Next all _ _ _ _ _ _ hp h, afterRows, hl]

theorem pageIter_panic (db : IndexerDb) (Next : TxnRow → String) (all : List roundIntra)
    (st : PagingState) (row : TxnRow) (rest : List TxnRow)
    (hrows : db.Transactions st.q = row :: rest) (h : all.length ≤ st.pos) :
    pageIter db Next all st = (some LoopEnd.indexOutOfRange, afterPanic st row) := by
  simp [pageIter, hrows, scanPage_outOfRange Next all row rest _ _ _ _ _ h, afterPanic]

/-- Proof rule of the outer loop: an invariant kept by every page that lets
the loop go on, and a postcondition met by each of the three ways the loop
ends, give the postcondition for every budget beyond len(all) - 1 - pos. -/
theorem pagingLoop_rule (db : IndexerDb) (Next : TxnRow → String) (all : List roundIntra)
    (Inv : PagingState → Prop) (Post : LoopEnd → PagingState → Prop)
    (hmore : ∀ st, Inv st → db.Transactions st.q ≠ [] →
      st.pos + (db.Transactions st.q).length < all.length →
      Inv (afterRows Next all st (db.Transactions st.q) (db.Transactions st.q)))
    (hempty : ∀ st, Inv st → db.Transactions st.q = [] →
      Post LoopEnd.left (afterRows Next all st [] []))
    (hlast : ∀ st, Inv st → st.pos < all.length →
      all.length ≤ st.pos + (db.Transactions st.q).length →
      Post LoopEnd.left (afterRows Next all st
          ((db.Transactions st.q).take (all.length - st.pos))
          ((db.Transactions st.q).take (all.length - st.pos - 1))))
    (hpanic : ∀ st row rest, Inv st → db.Transactions st.q = row :: rest →
      all.length ≤ st.pos → Post LoopEnd.indexOutOfRange (afterPanic st row)) :
    ∀ (fuel : Nat) (st : PagingState), Inv st → all.length - 1 - st.pos < fuel →
      Post (pagingLoop db Next all fuel st).1 (pagingLoop db Next all fuel st).2 := by
  intro fuel
  induction fuel with
  | zero => intro st _ h; omega
  | succ fuel ih =>
    intro st hinv hfuel
    rw [pagingLoop]
    cases hrows : db.Transactions st.q with
    | nil =>
      rw [pageIter_empty db Next all st hrows]
      exact hempty st hinv hrows
    | cons row rest =>
      have hne : db.Transactions st.q ≠ [] := by rw [hrows]; simp
      by_cases hp : st.pos < all.length
      · by_cases hlen : st.pos + (db.Transactions st.q).length < all.length
        · rw [pageIter_more db Next all st hne hlen]
          have hinv1 := hmore st hinv hne hlen
          have hpos : 0 < (db.Transactions st.q).length := List.length_pos.mpr hne
          exact ih _ hinv1 (by simp only [afterRows]; omega)
        · rw [pageIter_last db Next all st hp (by omega)]
          exact hlast st hinv hp (by omega)
      · rw [pageIter_panic db Next all st row rest hrows (by omega)]
        exact hpanic st row rest hinv hrows (by omega)

/-- More budget does not change a run that ended by itself. -/
theorem pagingLoop_fuel (db : IndexerDb) (Next : TxnRow → String) (all : List roundIntra) :
    ∀ (fuel : Nat) (st : PagingState), all.length - 1 - st.pos < fuel →
      ∀ k, pagingLoop db Next all (fuel + k) st = pagingLoop db Next all fuel st := by
  intro fuel
  induction fuel with
  | zero => intro st h; omega
  | succ fuel ih =>
    intro st hfuel k
    have hk : fuel + 1 + k = (fuel + k) + 1 := by omega
    rw [hk, pagingLoop, pagingLoop]
    cases hrows : db.Transactions st.q with
    | nil => rw [pageIter_empty db Next all st hrows]
    | cons row rest =>
      have hne : db.Transactions st.q ≠ [] := by rw [hrows]; simp
      by_cases hp : st.pos < all.length
      · by_cases hlen : st.pos + (db.Transactions st.q).length < all.length
        · rw [pageIter_more db Next all st hne hlen]
          have hpos : 0 < (db.Transactions st.q).length := List.length_pos.mpr hne
          exact ih _ (by simp only [afterRows]; omega) k
        · rw [pageIter_last db Next all st hp (by omega)]
      · rw [pageIter_panic db Next all st row rest hrows (by omega)]

theorem loopInv_init (db : IndexerDb) (Next : TxnRow → String) (all : List roundIntra)
    (q0 : TransactionFilter) (ev0 : Int) :
    LoopInv db Next all q0 ev0 (initState q0 ev0) where
  inRange := Or.inr rfl
  cur := rfl
  asked := rfl
  nonempty := by intro k hk; simp [initState] at hk
  seen := rfl
  posEq := rfl
  evEq := by simp [initState, evAfter_nil]
  pageLe := Nat.le_refl _

theorem pagesOf_afterRows (db : IndexerDb) (Next : TxnRow → String) (all : List roundIntra)
    (st : PagingState) (cmp toks : List TxnRow) :
    pagesOf db (afterRows Next all st cmp toks) = pagesOf db st ++ db.Transactions st.q := by
  simp [pagesOf, afterRows, List.flatMap_append]

theorem loopInv_more (db : IndexerDb) (Next : TxnRow → String) (all : List roundIntra)
    (q0 : TransactionFilter) (ev0 : Int) (st : PagingState)
    (hinv : LoopInv db Next all q0 ev0 st) (hne : db.Transactions st.q ≠ [])
    (hlen : st.pos + (db.Transactions st.q).length < all.length) :
    LoopInv db Next all q0 ev0
      (afterRows Next all st (db.Transactions st.q) (db.Transactions st.q)) where
  inRange := Or.inl (by simpa [afterRows] using hlen)
  cur := by
    simp only [afterRows, pageQuery]
    rw [← hinv.cur]
  asked := by
    simp only [afterRows]
    rw [List.range_succ, List.map_append, ← hinv.asked, hinv.cur]
    simp
  nonempty := by
    intro k hk
    simp only [afterRows] at hk
    by_cases h : k < st.page
    · exact hinv.nonempty k h
    · have hk2 : k = st.page := by omega
      rw [hk2, ← hinv.cur]
      exact hne
  seen := by
    rw [pagesOf_afterRows, List.enumFrom_append, ← hinv.seen, ← hinv.posEq]
    simp [afterRows]
  posEq := by
    rw [pagesOf_afterRows, List.length_append, ← hinv.posEq]
    simp [afterRows]
  evEq := by
    simp only [afterRows]
    rw [hinv.evEq, evAfter_append]
  pageLe := by
    have hpos : 0 < (db.Transactions st.q).length := List.length_pos.mpr hne
    have := hinv.pageLe
    simp only [afterRows]
    omega

theorem loopInv_queries_length (db : IndexerDb) (Next : TxnRow → String)
    (all : List roundIntra) (q0 : TransactionFilter) (ev0 : Int) (st : PagingState)
    (hinv : LoopInv db Next all q0 ev0 st) : st.queries.length = st.page := by
  rw [hinv.asked]; simp

theorem loopInv_accesses_length (db : IndexerDb) (Next : TxnRow → String)
    (all : List roundIntra) (q0 : TransactionFilter) (ev0 : Int) (st : PagingState)
    (hinv : LoopInv db Next all q0 ev0 st) : st.accesses.length = st.pos := by
  rw [hinv.seen, hinv.posEq]; simp

theorem loopInv_pos_le (db : IndexerDb) (Next : TxnRow → String)
    (all : List roundIntra) (q0 : TransactionFilter) (ev0 : Int) (st : PagingState)
    (hinv : LoopInv db Next all q0 ev0 st) : st.pos ≤ all.length ∧ st.page + 1 ≤ max all.length 1 := by
  have hle := hinv.pageLe
  rcases hinv.inRange with h | h
  · constructor <;> omega
  · rw [h] at hle ⊢
    simp only [initState] at hle ⊢
    constructor <;> omega

theorem loopPost_asked (db : IndexerDb) (Next : TxnRow → String)
    (all : List roundIntra) (q0 : TransactionFilter) (ev0 : Int) (st : PagingState)
    (hinv : LoopInv db Next all q0 ev0 st) :
    st.queries ++ [st.q] =
      (List.range (st.queries ++ [st.q]).length).map (pageQuery db Next q0) := by
  rw [List.length_append, loopInv_queries_length db Next all q0 ev0 st hinv]
  simp only [List.length_singleton]
  rw [List.range_succ, List.map_append, ← hinv.asked, hinv.cur]
  simp

theorem loopPost_empty (db : IndexerDb) (Next : TxnRow → String) (all : List roundIntra)
    (q0 : TransactionFilter) (ev0 : Int) (st : PagingState)
    (hinv : LoopInv db Next all q0 ev0 st) (hrows : db.Transactions st.q = []) :
    LoopPost db Next all q0 ev0 LoopEnd.left (afterRows Next all st [] []) where
  ended := by decide
  asked := loopPost_asked db Next all q0 ev0 st hinv
  askedPos := by simp [afterRows]
  nonempty := by
    intro k hk
    have hq := loopInv_queries_length db Next all q0 ev0 st hinv
    simp only [afterRows, List.length_append, List.length_singleton] at hk
    exact hinv.nonempty k (by omega)
  seen := by
    have ha := loopInv_accesses_length db Next all q0 ev0 st hinv
    rw [pagesOf_afterRows, hrows]
    simp only [afterRows, List.enumFrom_nil, List.append_nil]
    rw [ha, hinv.posEq, List.take_length]
    exact hinv.seen
  pageEq := by
    intro _
    have hq := loopInv_queries_length db Next all q0 ev0 st hinv
    simp [afterRows, hq]
  posEq := by
    intro _
    have ha := loopInv_accesses_length db Next all q0 ev0 st hinv
    simp [afterRows, ha]
  posLe := by
    intro _
    have := (loopInv_pos_le db Next all q0 ev0 st hinv).1
    simpa [afterRows] using this
  evEq := by
    intro _
    simp only [afterRows, List.enumFrom_nil, List.append_nil, evAfter_nil]
    exact hinv.evEq
  pageLe := by
    intro _
    exact (loopInv_pos_le db Next all q0 ev0 st hinv).2
  stop := by
    intro _
    right
    simp only [afterRows, Nat.add_sub_cancel]
    rw [← hinv.cur]
    exact hrows
  panic := by intro h; cases h

theorem loopPost_last (db : IndexerDb) (Next : TxnRow → String) (all : List roundIntra)
    (q0 : TransactionFilter) (ev0 : Int) (st : PagingState)
    (hinv : LoopInv db Next all q0 ev0 st) (hp : st.pos < all.length)
    (hlen : all.length ≤ st.pos + (db.Transactions st.q).length) :
    LoopPost db Next all q0 ev0 LoopEnd.left (afterRows Next all st
      ((db.Transactions st.q).take (all.length - st.pos))
      ((db.Transactions st.q).take (all.length - st.pos - 1))) where
  ended := by decide
  asked := loopPost_asked db Next all q0 ev0 st hinv
  askedPos := by simp [afterRows]
  nonempty := by
    intro k hk
    have hq := loopInv_queries_length db Next all q0 ev0 st hinv
    simp only [afterRows, List.length_append, List.length_singleton] at hk
    exact hinv.nonempty k (by omega)
  seen := by
    have ha := loopInv_accesses_length db Next all q0 ev0 st hinv
    have hpl := hinv.posEq
    have hacc : (afterRows Next all st
        ((db.Transactions st.q).take (all.length - st.pos))
        ((db.Transactions st.q).take (all.length - st.pos - 1))).accesses.length
          = all.length := by
      simp only [afterRows, List.length_append, List.enumFrom_length, List.length_take, ha]
      omega
    have htake : List.take all.length (pagesOf db st) = pagesOf db st :=
      List.take_of_length_le (by omega)
    rw [hacc, pagesOf_afterRows, List.take_append_eq_append_take, htake,
      List.enumFrom_append, ← hinv.seen, ← hpl]
    simp [afterRows]
  pageEq := by
    intro _
    have hq := loopInv_queries_length db Next all q0 ev0 st hinv
    simp [afterRows, hq]
  posEq := by
    intro _
    have ha := loopInv_accesses_length db Next all q0 ev0 st hinv
    simp [afterRows, ha]
  posLe := by
    intro _
    simp only [afterRows, List.length_take]
    omega
  evEq := by
    intro _
    simp only [afterRows]
    rw [hinv.evEq, evAfter_append]
  pageLe := by
    intro _
    have := hinv.pageLe
    simp only [afterRows]
    omega
  stop := by
    intro _
    left
    simp only [afterRows, List.length_take]
    omega
  panic := by intro h; cases h

theorem loopPost_panic (db : IndexerDb) (Next : TxnRow → String) (all : List roundIntra)
    (q0 : TransactionFilter) (ev0 : Int) (st : PagingState) (row : TxnRow) (rest : List TxnRow)
    (hinv : LoopInv db Next all q0 ev0 st) (hrows : db.Transactions st.q = row :: rest)
    (hp : all.length ≤ st.pos) :
    LoopPost db Next all q0 ev0 LoopEnd.indexOutOfRange (afterPanic st row) := by
  have hst : st = initState q0 ev0 := by
    rcases hinv.inRange with h | h
    · omega
    · exact h
  subst hst
  have hn : all.length = 0 := by simpa [initState] using hp
  have hrows0 : db.Transactions q0 = row :: rest := hrows
  exact {
    ended := by decide
    asked := by simp [afterPanic, initState, pageQuery, List.range_succ]
    askedPos := by simp [afterPanic]
    nonempty := by
      intro k hk
      simp [afterPanic, initState] at hk
    seen := by simp [afterPanic, initState, pagesOf, hrows0]
    pageEq := by intro h; cases h
    posEq := by intro h; cases h
    posLe := by intro h; cases h
    evEq := by intro h; cases h
    pageLe := by intro h; cases h
    stop := by intro h; cases h
    panic := by
      intro _
      exact ⟨hn, rfl, rfl, rfl, rfl, row, rest, hrows0, rfl⟩ }

/-- The outer loop, entered with the locals of testTxnPaging, ends by itself
within max(len(all), 1) iterations, in a state described by LoopPost. -/
theorem pagingLoop_post (db : IndexerDb) (Next : TxnRow → String) (all : List roundIntra)
    (q0 : TransactionFilter) (ev0 : Int) (fuel : Nat) (hfuel : max all.length 1 ≤ fuel) :
    LoopPost db Next all q0 ev0 (pagingLoop db Next all fuel (initState q0 ev0)).1
      (pagingLoop db Next all fuel (initState q0 ev0)).2 := by
  apply pagingLoop_rule db Next all (LoopInv db Next all q0 ev0) (LoopPost db Next all q0 ev0)
  · intro st hinv hne hlen
    exact loopInv_more db Next all q0 ev0 st hinv hne hlen
  · intro st hinv hrows
    exact loopPost_empty db Next all q0 ev0 st hinv hrows
  · intro st hinv hp hlen
    exact loopPost_last db Next all q0 ev0 st hinv hp hlen
  · intro st row rest hinv hrows hp
    exact loopPost_panic db Next all q0 ev0 st row rest hinv hrows hp
  · exact loopInv_init db Next all q0 ev0
  · simp only [initState]
    omega

/-! ## The paging test against an arbitrary store -/

theorem mismatch_iff (all : List roundIntra) (a : Nat × TxnRow) :
    mismatch all a = true ↔ Differs all a := by
  unfold mismatch Differs
  cases h : all[a.1]? with
  | none => simp
  | some ri => simp

theorem evAfter_eq_one (all : List roundIntra) (ev0 : Int) (acc : List (Nat × TxnRow))
    (h : ∃ a ∈ acc, Differs all a) : evAfter all ev0 acc = 1 := by
  obtain ⟨a, ha, hd⟩ := h
  have : acc.any (mismatch all) = true :=
    List.any_eq_true.mpr ⟨a, ha, (mismatch_iff all a).mpr hd⟩
  simp [evAfter, this]

theorem evAfter_eq_self (all : List roundIntra) (ev0 : Int) (acc : List (Nat × TxnRow))
    (h : ¬ ∃ a ∈ acc, Differs all a) : evAfter all ev0 acc = ev0 := by
  have : ¬ (acc.any (mismatch all) = true) := by
    intro hany
    obtain ⟨a, ha, hm⟩ := List.any_eq_true.mp hany
    exact h ⟨a, ha, (mismatch_iff all a).mp hm⟩
  simp [evAfter, this]

theorem testTxnPaging_ending (db : IndexerDb) (Next : TxnRow → String) (q : TransactionFilter)
    (ev0 : Int) : (testTxnPaging db Next q ev0).ending = (loopRun db Next q ev0).1 := rfl

theorem testTxnPaging_all (db : IndexerDb) (Next : TxnRow → String) (q : TransactionFilter)
    (ev0 : Int) : (testTxnPaging db Next q ev0).all = oneShot db q := rfl

theorem testTxnPaging_limit (db : IndexerDb) (Next : TxnRow → String) (q : TransactionFilter)
    (ev0 : Int) : (testTxnPaging db Next q ev0).limit = pageLimit (oneShot db q) := rfl

theorem testTxnPaging_pos (db : IndexerDb) (Next : TxnRow → String) (q : TransactionFilter)
    (ev0 : Int) : (testTxnPaging db Next q ev0).pos = (loopRun db Next q ev0).2.pos := rfl

theorem testTxnPaging_page (db : IndexerDb) (Next : TxnRow → String) (q : TransactionFilter)
    (ev0 : Int) : (testTxnPaging db Next q ev0).page = (loopRun db Next q ev0).2.page := rfl

theorem testTxnPaging_queries (db : IndexerDb) (Next : TxnRow → String)
    (q : TransactionFilter) (ev0 : Int) :
    (testTxnPaging db Next q ev0).queries = (loopRun db Next q ev0).2.queries := rfl

theorem testTxnPaging_accesses (db : IndexerDb) (Next : TxnRow → String)
    (q : TransactionFilter) (ev0 : Int) :
    (testTxnPaging db Next q ev0).accesses = (loopRun db Next q ev0).2.accesses := rfl

theorem testTxnPaging_exitValue_left (db : IndexerDb) (Next : TxnRow → String)
    (q : TransactionFilter) (ev0 : Int) (h : (loopRun db Next q ev0).1 = LoopEnd.left) :
    (testTxnPaging db Next q ev0).exitValue =
      if (loopRun db Next q ev0).2.pos ≠ (oneShot db q).length then 1
      else (loopRun db Next q ev0).2.exitValue := by
  show (match (loopRun db Next q ev0).1 with
    | LoopEnd.left => if (loopRun db Next q ev0).2.pos ≠ (oneShot db q).length then 1
        else (loopRun db Next q ev0).2.exitValue
    | _ => (loopRun db Next q ev0).2.exitValue) = _
  rw [h]

theorem testTxnPaging_exitValue_panic (db : IndexerDb) (Next : TxnRow → String)
    (q : TransactionFilter) (ev0 : Int)
    (h : (loopRun db Next q ev0).1 = LoopEnd.indexOutOfRange) :
    (testTxnPaging db Next q ev0).exitValue = (loopRun db Next q ev0).2.exitValue := by
  show (match (loopRun db Next q ev0).1 with
    | LoopEnd.left => if (loopRun db Next q ev0).2.pos ≠ (oneShot db q).length then 1
        else (loopRun db Next q ev0).2.exitValue
    | _ => (loopRun db Next q ev0).2.exitValue) = _
  rw [h]

/-- The postcondition of the outer loop holds of the run inside testTxnPaging. -/
theorem loopRun_post (db : IndexerDb) (Next : TxnRow → String) (q : TransactionFilter)
    (ev0 : Int) :
    LoopPost db Next (oneShot db q) (firstQuery db q) ev0 (loopRun db Next q ev0).1
      (loopRun db Next q ev0).2 :=
  pagingLoop_post db Next (oneShot db q) (firstQuery db q) ev0 _ (by omega)

/-- The run ends by leaving the loop unless the one-shot result is empty and
the first page is not. -/
theorem loopRun_left (db : IndexerDb) (Next : TxnRow → String) (q : TransactionFilter)
    (ev0 : Int)
    (h : 0 < (oneShot db q).length ∨ db.Transactions (firstQuery db q) = []) :
    (loopRun db Next q ev0).1 = LoopEnd.left := by
  have hpost := loopRun_post db Next q ev0
  cases he : (loopRun db Next q ev0).1 with
  | left => rfl
  | outOfFuel => exact absurd he hpost.ended
  | indexOutOfRange =>
    obtain ⟨hn, _, _, _, _, row, rest, hrows, _⟩ := hpost.panic he
    rcases h with h | h
    · omega
    · rw [h] at hrows; cases hrows

theorem pageQuery_fields (db : IndexerDb) (Next : TxnRow → String) (q0 : TransactionFilter)
    (k : Nat) :
    pageQuery db Next q0 k = { q0 with NextToken := (pageQuery db Next q0 k).NextToken } := by
  induction k with
  | zero => rfl
  | succ k ih =>
    rw [pageQuery, ih]

theorem pageQuery_agree (db : IndexerDb) (Next : TxnRow → String) (q0 : TransactionFilter)
    (k : Nat) (t : String) :
    ({ pageQuery db Next q0 k with NextToken := t } : TransactionFilter)
      = { q0 with NextToken := t } := by
  induction k with
  | zero => rfl
  | succ k ih => exact ih

theorem pageQuery_succ (db : IndexerDb) (Next : TxnRow → String) (q0 : TransactionFilter)
    (k : Nat) :
    pageQuery db Next q0 (k + 1)
      = { q0 with NextToken := lastTok Next "" (db.Transactions (pageQuery db Next q0 k)) } :=
  pageQuery_agree db Next q0 k _

theorem loopRun_panic (db : IndexerDb) (Next : TxnRow → String) (q : TransactionFilter)
    (ev0 : Int) (hn : (oneShot db q).length = 0)
    (hne : db.Transactions (firstQuery db q) ≠ []) :
    (loopRun db Next q ev0).1 = LoopEnd.indexOutOfRange := by
  cases hrows : db.Transactions (firstQuery db q) with
  | nil => exact absurd hrows hne
  | cons row rest =>
    rw [loopRun, pagingLoop,
      pageIter_panic db Next (oneShot db q) (initState (firstQuery db q) ev0) row rest hrows
        (by simp [initState, hn])]

theorem loopPost_getElem (db : IndexerDb) (Next : TxnRow → String) (all : List roundIntra)
    (q0 : TransactionFilter) (ev0 : Int) (e : LoopEnd) (st : PagingState)
    (hpost : LoopPost db Next all q0 ev0 e st) (k : Nat) (f : TransactionFilter)
    (h : st.queries[k]? = some f) : k < st.queries.length ∧ f = pageQuery db Next q0 k := by
  have hk : k < st.queries.length := by
    by_contra hc
    rw [List.getElem?_eq_none (by omega)] at h
    cases h
  refine ⟨hk, ?_⟩
  rw [hpost.asked, List.getElem?_map, List.getElem?_range hk] at h
  simpa using h.symm

theorem getLast_map_range {α : Type} (f : Nat → α) (m : Nat) (h : 0 < m) :
    ((List.range m).map f).getLast? = some (f (m - 1)) := by
  rw [List.getLast?_eq_getElem?, List.length_map, List.length_range, List.getElem?_map,
    List.getElem?_range (by omega)]
  rfl

theorem loopPost_getLast (db : IndexerDb) (Next : TxnRow → String) (all : List roundIntra)
    (q0 : TransactionFilter) (ev0 : Int) (e : LoopEnd) (st : PagingState)
    (hpost : LoopPost db Next all q0 ev0 e st) :
    st.queries.getLast? = some (pageQuery db Next q0 (st.queries.length - 1)) := by
  have h := getLast_map_range (pageQuery db Next q0) st.queries.length hpost.askedPos
  rw [← hpost.asked] at h
  exact h

/-- Claim C1 -- what the paging test detects.  When the one-shot result is not
empty or the first page is empty, testTxnPaging returns, and it leaves
exitValue at 1 exactly when (a) a row compared at index pos differs from
all[pos] in Round or in Intra, or (b) pos is not len(all) at the end, which
happens only after an empty page; otherwise exitValue is unchanged.  The rows
inspected are the first pos rows of the pages, with pos at most len(all). -/
theorem testTxnPaging_detects (db : IndexerDb) (Next : TxnRow → String)
    (q : TransactionFilter) (ev0 : Int)
    (h : 0 < (oneShot db q).length ∨
      db.Transactions { q with Limit := pageLimit (oneShot db q) } = []) :
    (testTxnPaging db Next q ev0).ending = LoopEnd.left ∧
    (testTxnPaging db Next q ev0).all = (db.Transactions { q with Limit := 1000 }).map riOf ∧
    (((∃ a ∈ (testTxnPaging db Next q ev0).accesses,
          Differs (testTxnPaging db Next q ev0).all a) ∨
        (testTxnPaging db Next q ev0).pos ≠ (testTxnPaging db Next q ev0).all.length) →
      (testTxnPaging db Next q ev0).exitValue = 1) ∧
    (¬ ((∃ a ∈ (testTxnPaging db Next q ev0).accesses,
          Differs (testTxnPaging db Next q ev0).all a) ∨
        (testTxnPaging db Next q ev0).pos ≠ (testTxnPaging db Next q ev0).all.length) →
      (testTxnPaging db Next q ev0).exitValue = ev0) ∧
    ((testTxnPaging db Next q ev0).pos ≠ (testTxnPaging db Next q ev0).all.length →
      ∃ f, (testTxnPaging db Next q ev0).queries.getLast? = some f ∧
        db.Transactions f = []) ∧
    (testTxnPaging db Next q ev0).accesses =
      (((testTxnPaging db Next q ev0).queries.flatMap db.Transactions).take
        (testTxnPaging db Next q ev0).pos).enumFrom 0 ∧
    (testTxnPaging db Next q ev0).pos ≤ (testTxnPaging db Next q ev0).all.length := by
  have hpost := loopRun_post db Next q ev0
  have hleft := loopRun_left db Next q ev0 h
  have hev := testTxnPaging_exitValue_left db Next q ev0 hleft
  rw [testTxnPaging_ending, testTxnPaging_all, testTxnPaging_pos, testTxnPaging_accesses,
    testTxnPaging_queries]
  refine ⟨hleft, rfl, ?_, ?_, ?_, ?_, hpost.posLe hleft⟩
  · intro hc
    rw [hev]
    by_cases hp : (loopRun db Next q ev0).2.pos ≠ (oneShot db q).length
    · simp [hp]
    · rw [if_neg hp, hpost.evEq hleft]
      rcases hc with hc | hc
      · exact evAfter_eq_one _ _ _ hc
      · exact absurd hc hp
  · intro hc
    have hp : ¬ ((loopRun db Next q ev0).2.pos ≠ (oneShot db q).length) :=
      fun hp => hc (Or.inr hp)
    rw [hev, if_neg hp, hpost.evEq hleft]
    exact evAfter_eq_self _ _ _ (fun ha => hc (Or.inl ha))
  · intro hp
    have hpos := hpost.askedPos
    have hpage := hpost.pageEq hleft
    rcases hpost.stop hleft with hs | hs
    · exact absurd hs hp
    · refine ⟨pageQuery db Next (firstQuery db q) ((loopRun db Next q ev0).2.page - 1), ?_, hs⟩
      rw [loopPost_getLast db Next _ _ ev0 _ _ hpost, hpage]
  · have hs := hpost.seen
    rw [← hpost.posEq hleft] at hs
    exact hs

/-- Claim C6 -- token feedback.  The first page query is q with only Limit set
to len(all)/3 + 1, so that it carries the NextToken the caller passed; each
later page query carries the value of Next() on the last row of the page
before it, which is not empty; and every page query agrees with q in all
fields other than Limit and NextToken.  The filters main passes have an empty
NextToken. -/
theorem testTxnPaging_token_feedback (db : IndexerDb) (Next : TxnRow → String)
    (q : TransactionFilter) (ev0 : Int) :
    (testTxnPaging db Next q ev0).queries.head? =
      some { q with Limit := (testTxnPaging db Next q ev0).all.length / 3 + 1 } ∧
    (∀ k fa fb, (testTxnPaging db Next q ev0).queries[k]? = some fa →
      (testTxnPaging db Next q ev0).queries[k + 1]? = some fb →
      ∃ row, (db.Transactions fa).getLast? = some row ∧
        fb = { q with Limit := (testTxnPaging db Next q ev0).all.length / 3 + 1,
                      NextToken := Next row }) ∧
    (∀ f ∈ (testTxnPaging db Next q ev0).queries,
      { f with NextToken := q.NextToken } =
        { q with Limit := (testTxnPaging db Next q ev0).all.length / 3 + 1 }) ∧
    ((testTxnPaging db Next q ev0).ending = LoopEnd.left →
      (testTxnPaging db Next q ev0).queries.length = (testTxnPaging db Next q ev0).page) ∧
    (∀ xa, ∀ f ∈ pagingFilters xa, f.NextToken = "") := by
  have hpost := loopRun_post db Next q ev0
  rw [testTxnPaging_ending, testTxnPaging_all, testTxnPaging_page, testTxnPaging_queries]
  refine ⟨?_, ?_, ?_, fun hl => (hpost.pageEq hl).symm, ?_⟩
  · have hpos := hpost.askedPos
    cases hq : (loopRun db Next q ev0).2.queries with
    | nil => rw [hq] at hpos; simp at hpos
    | cons f rest =>
      have h0 : (loopRun db Next q ev0).2.queries[0]? = some f := by rw [hq]; simp
      have := (loopPost_getElem db Next _ _ ev0 _ _ hpost 0 f h0).2
      rw [List.head?_cons, this]
      rfl
  · intro k fa fb ha hb
    obtain ⟨_, hfa⟩ := loopPost_getElem db Next _ _ ev0 _ _ hpost k fa ha
    obtain ⟨hk, hfb⟩ := loopPost_getElem db Next _ _ ev0 _ _ hpost (k + 1) fb hb
    have hne := hpost.nonempty k hk
    rw [← hfa] at hne
    cases hl : (db.Transactions fa).getLast? with
    | none => exact absurd (List.getLast?_eq_none_iff.mp hl) hne
    | some row =>
      refine ⟨row, rfl, ?_⟩
      rw [hfb, pageQuery_succ, ← hfa, lastTok, hl]
      rfl
  · intro f hf
    obtain ⟨k, hk⟩ := List.mem_iff_getElem?.mp hf
    obtain ⟨_, hfk⟩ := loopPost_getElem db Next _ _ ev0 _ _ hpost k f hk
    rw [hfk, pageQuery_fields db Next (firstQuery db q) k]
    rfl
  · intro xa f hf
    simp only [pagingFilters, List.mem_cons, List.mem_singleton, List.not_mem_nil,
      or_false] at hf
    rcases hf with h | h | h <;> rw [h]

/-- Claim C9 -- index safety.  When the one-shot result is not empty the run
never panics and every evaluation of all[pos] has pos < len(all); the run
panics at all[pos] exactly when the one-shot result is empty and the first
page is not, and only then is an index out of range.  The run always ends
within its budget. -/
theorem testTxnPaging_index_safe (db : IndexerDb) (Next : TxnRow → String)
    (q : TransactionFilter) (ev0 : Int) :
    (0 < (testTxnPaging db Next q ev0).all.length →
      (testTxnPaging db Next q ev0).ending = LoopEnd.left ∧
      ∀ a ∈ (testTxnPaging db Next q ev0).accesses,
        a.1 < (testTxnPaging db Next q ev0).all.length) ∧
    ((testTxnPaging db Next q ev0).ending = LoopEnd.indexOutOfRange ↔
      (testTxnPaging db Next q ev0).all.length = 0 ∧
      db.Transactions { q with Limit := (testTxnPaging db Next q ev0).all.length / 3 + 1 }
        ≠ []) ∧
    ((∃ a ∈ (testTxnPaging db Next q ev0).accesses,
        (testTxnPaging db Next q ev0).all.length ≤ a.1) →
      (testTxnPaging db Next q ev0).ending = LoopEnd.indexOutOfRange) ∧
    (testTxnPaging db Next q ev0).ending ≠ LoopEnd.outOfFuel := by
  have hpost := loopRun_post db Next q ev0
  rw [testTxnPaging_ending, testTxnPaging_all, testTxnPaging_accesses]
  have hidx : (loopRun db Next q ev0).1 = LoopEnd.left →
      ∀ a ∈ (loopRun db Next q ev0).2.accesses, a.1 < (oneShot db q).length := by
    intro hleft a ha
    have hle := hpost.posLe hleft
    rw [hpost.posEq hleft] at hle
    rw [hpost.seen] at ha
    obtain ⟨i, x⟩ := a
    have h1 := List.mem_enumFrom ha
    have h2 : (List.take (loopRun db Next q ev0).2.accesses.length
        (pagesOf db (loopRun db Next q ev0).2)).length
          ≤ (loopRun db Next q ev0).2.accesses.length := by
      rw [List.length_take]; omega
    simp only
    omega
  have hpanic : (loopRun db Next q ev0).1 = LoopEnd.indexOutOfRange ↔
      (oneShot db q).length = 0 ∧
      db.Transactions { q with Limit := (oneShot db q).length / 3 + 1 } ≠ [] := by
    constructor
    · intro he
      obtain ⟨hn, _, _, _, _, row, rest, hrows, _⟩ := hpost.panic he
      refine ⟨hn, ?_⟩
      intro hc
      have hrows2 : db.Transactions { q with Limit := (oneShot db q).length / 3 + 1 }
          = row :: rest := hrows
      rw [hc] at hrows2
      cases hrows2
    · intro ⟨hn, hne⟩
      exact loopRun_panic db Next q ev0 hn hne
  refine ⟨?_, hpanic, ?_, hpost.ended⟩
  · intro hn
    have hleft := loopRun_left db Next q ev0 (Or.inl hn)
    exact ⟨hleft, hidx hleft⟩
  · intro ⟨a, ha, hle⟩
    cases he : (loopRun db Next q ev0).1 with
    | indexOutOfRange => rfl
    | outOfFuel => exact absurd he hpost.ended
    | left => exact absurd (hidx he a ha) (by omega)

theorem pageIter_none (db : IndexerDb) (Next : TxnRow → String) (all : List roundIntra)
    (st st1 : PagingState) (h : pageIter db Next all st = (none, st1)) :
    db.Transactions st.q ≠ [] ∧ st1.pos = st.pos + (db.Transactions st.q).length ∧
      st.pos < st1.pos ∧ st1.pos < all.length := by
  by_cases hne : db.Transactions st.q = []
  · rw [pageIter_empty db Next all st hne] at h
    cases h
  · by_cases hp : st.pos < all.length
    · by_cases hlen : st.pos + (db.Transactions st.q).length < all.length
      · rw [pageIter_more db Next all st hne hlen] at h
        have hst : st1 = afterRows Next all st (db.Transactions st.q) (db.Transactions st.q) :=
          (congrArg Prod.snd h).symm
        have hpos : 0 < (db.Transactions st.q).length := List.length_pos.mpr hne
        have hp1 : st1.pos = st.pos + (db.Transactions st.q).length := by rw [hst]; rfl
        exact ⟨hne, hp1, by omega, by omega⟩
      · rw [pageIter_last db Next all st hp (by omega)] at h
        cases h
    · obtain ⟨row, rest, hrows⟩ := List.exists_cons_of_ne_nil hne
      rw [pageIter_panic db Next all st row rest hrows (by omega)] at h
      cases h

/-- Claim C8 -- the paging loop ends by itself.  When the one-shot result is
not empty or the first page is empty, every iteration budget of at least
max(len(all), 1) gives the same run, which leaves the loop after at most
max(len(all), 1) page queries with pos at most len(all).  An iteration after
which the loop goes on received at least one row, added the number of rows of
its page to pos and left pos below len(all); an empty page ends the loop, and
so does a page on which pos reaches len(all). -/
theorem pagingLoop_terminates (db : IndexerDb) (Next : TxnRow → String)
    (q : TransactionFilter) (ev0 : Int)
    (h : 0 < (oneShot db q).length ∨
      db.Transactions { q with Limit := pageLimit (oneShot db q) } = []) :
    (∀ fuel, max (oneShot db q).length 1 ≤ fuel →
      pagingLoop db Next (oneShot db q) fuel
          (initState { q with Limit := pageLimit (oneShot db q) } ev0)
        = pagingLoop db Next (oneShot db q) ((oneShot db q).length + 1)
          (initState { q with Limit := pageLimit (oneShot db q) } ev0) ∧
      (pagingLoop db Next (oneShot db q) fuel
          (initState { q with Limit := pageLimit (oneShot db q) } ev0)).1 = LoopEnd.left) ∧
    (testTxnPaging db Next q ev0).ending = LoopEnd.left ∧
    (testTxnPaging db Next q ev0).queries.length = (testTxnPaging db Next q ev0).page ∧
    (testTxnPaging db Next q ev0).page ≤ max (testTxnPaging db Next q ev0).all.length 1 ∧
    (testTxnPaging db Next q ev0).pos ≤ (testTxnPaging db Next q ev0).all.length ∧
    (∀ st st1, pageIter db Next (oneShot db q) st = (none, st1) →
      db.Transactions st.q ≠ [] ∧ st1.pos = st.pos + (db.Transactions st.q).length ∧
      st.pos < st1.pos ∧ st1.pos < (oneShot db q).length) ∧
    (∀ st, db.Transactions st.q = [] →
      (pageIter db Next (oneShot db q) st).1 = some LoopEnd.left) ∧
    (∀ st, st.pos < (oneShot db q).length →
      (oneShot db q).length ≤ st.pos + (db.Transactions st.q).length →
      (pageIter db Next (oneShot db q) st).1 = some LoopEnd.left ∧
      (pageIter db Next (oneShot db q) st).2.pos = (oneShot db q).length) := by
  have hpost := loopRun_post db Next q ev0
  have hleft := loopRun_left db Next q ev0 h
  have hfuel : ∀ fuel, max (oneShot db q).length 1 ≤ fuel →
      pagingLoop db Next (oneShot db q) fuel (initState (firstQuery db q) ev0)
        = loopRun db Next q ev0 := by
    intro fuel hf
    have hbase : (oneShot db q).length - 1 - (initState (firstQuery db q) ev0).pos
        < max (oneShot db q).length 1 := by
      simp only [initState]; omega
    have h1 := pagingLoop_fuel db Next (oneShot db q) _ _ hbase
      (fuel - max (oneShot db q).length 1)
    have h2 := pagingLoop_fuel db Next (oneShot db q) _ _ hbase
      ((oneShot db q).length + 1 - max (oneShot db q).length 1)
    have e1 : max (oneShot db q).length 1 + (fuel - max (oneShot db q).length 1) = fuel := by
      omega
    have e2 : max (oneShot db q).length 1
        + ((oneShot db q).length + 1 - max (oneShot db q).length 1)
          = (oneShot db q).length + 1 := by omega
    rw [e1] at h1
    rw [e2] at h2
    rw [loopRun, h1, h2]
  rw [testTxnPaging_ending, testTxnPaging_all, testTxnPaging_page, testTxnPaging_queries,
    testTxnPaging_pos]
  refine ⟨?_, hleft, (hpost.pageEq hleft).symm, hpost.pageLe hleft, hpost.posLe hleft,
    ?_, ?_, ?_⟩
  · intro fuel hf
    have := hfuel fuel hf
    exact ⟨this, by rw [show pagingLoop db Next (oneShot db q) fuel
        (initState { q with Limit := pageLimit (oneShot db q) } ev0)
          = loopRun db Next q ev0 from this]; exact hleft⟩
  · intro st st1 hit
    exact pageIter_none db Next (oneShot db q) st st1 hit
  · intro st hrows
    rw [pageIter_empty db Next (oneShot db q) st hrows]
  · intro st hp hlen
    rw [pageIter_last db Next (oneShot db q) st hp hlen]
    refine ⟨rfl, ?_⟩
    simp only [afterRows, List.length_take]
    omega

/-! ## Stores that agree on what the paging test reads -/

theorem scanPage_agree (Next : TxnRow → String) (all : List roundIntra) :
    ∀ (rows1 rows2 : List TxnRow) (pos : Nat) (ev : Int) (next : String) (any : Bool)
      (acc1 acc2 : List (Nat × TxnRow)),
      rows1.map (keyOf Next) = rows2.map (keyOf Next) →
      (scanPage Next all rows1 pos ev next any acc1).pos
          = (scanPage Next all rows2 pos ev next any acc2).pos ∧
      (scanPage Next all rows1 pos ev next any acc1).exitValue
          = (scanPage Next all rows2 pos ev next any acc2).exitValue ∧
      (scanPage Next all rows1 pos ev next any acc1).next
          = (scanPage Next all rows2 pos ev next any acc2).next ∧
      (scanPage Next all rows1 pos ev next any acc1).any
          = (scanPage Next all rows2 pos ev next any acc2).any ∧
      (scanPage Next all rows1 pos ev next any acc1).ending
          = (scanPage Next all rows2 pos ev next any acc2).ending := by
  intro rows1
  induction rows1 with
  | nil =>
    intro rows2 pos ev next any acc1 acc2 h
    cases rows2 with
    | nil => simp [scanPage]
    | cons r2 t2 => simp at h
  | cons r1 t1 ih =>
    intro rows2 pos ev next any acc1 acc2 h
    cases rows2 with
    | nil => simp at h
    | cons r2 t2 =>
      simp only [List.map_cons, List.cons.injEq, keyOf, Prod.mk.injEq] at h
      obtain ⟨⟨hr, hi, hn⟩, ht⟩ := h
      rw [scanPage, scanPage]
      cases hget : all[pos]? with
      | none => simp
      | some ri =>
        simp only [hr, hi, hn]
        by_cases hlast : pos + 1 = all.length
        · simp [hlast]
        · simp only [hlast, if_false]
          exact ih t2 _ _ _ _ _ _ ht

theorem pageIter_closePage (db : IndexerDb) (Next : TxnRow → String) (all : List roundIntra)
    (st : PagingState) :
    pageIter db Next all st = closePage st
      (scanPage Next all (db.Transactions st.q) st.pos st.exitValue "" false st.accesses) := rfl

theorem closePage_agree (st1 st2 : PagingState) (sc1 sc2 : PageScan)
    (hst : SameLocals st1 st2) (h1 : sc1.pos = sc2.pos) (h2 : sc1.exitValue = sc2.exitValue)
    (h3 : sc1.next = sc2.next) (h4 : sc1.any = sc2.any) (h5 : sc1.ending = sc2.ending) :
    (closePage st1 sc1).1 = (closePage st2 sc2).1 ∧
      SameLocals (closePage st1 sc1).2 (closePage st2 sc2).2 := by
  obtain ⟨hq, hpos, hpage, hev, hqs⟩ := hst
  unfold closePage
  rw [h5]
  cases sc2.ending <;>
    simp only [SameLocals, h1, h2, h3, h4, hq, hpos, hpage, hev, hqs, and_self]

theorem pageIter_agree (db1 db2 : IndexerDb) (Next : TxnRow → String) (all : List roundIntra)
    (st1 st2 : PagingState) (hst : SameLocals st1 st2)
    (hrows : (db1.Transactions st1.q).map (keyOf Next)
      = (db2.Transactions st2.q).map (keyOf Next)) :
    (pageIter db1 Next all st1).1 = (pageIter db2 Next all st2).1 ∧
      SameLocals (pageIter db1 Next all st1).2 (pageIter db2 Next all st2).2 := by
  have hs := scanPage_agree Next all _ _ st1.pos st1.exitValue "" false
    st1.accesses st2.accesses hrows
  rw [pageIter_closePage, pageIter_closePage, ← hst.2.1, ← hst.2.2.2.1]
  exact closePage_agree st1 st2 _ _ hst hs.1 hs.2.1 hs.2.2.1 hs.2.2.2.1 hs.2.2.2.2

theorem pagingLoop_agree (db1 db2 : IndexerDb) (Next : TxnRow → String) (all : List roundIntra)
    (hdb : ∀ f, (db1.Transactions f).map (keyOf Next) = (db2.Transactions f).map (keyOf Next)) :
    ∀ (fuel : Nat) (st1 st2 : PagingState), SameLocals st1 st2 →
      (pagingLoop db1 Next all fuel st1).1 = (pagingLoop db2 Next all fuel st2).1 ∧
        SameLocals (pagingLoop db1 Next all fuel st1).2 (pagingLoop db2 Next all fuel st2).2 := by
  intro fuel
  induction fuel with
  | zero => intro st1 st2 hst; exact ⟨rfl, hst⟩
  | succ fuel ih =>
    intro st1 st2 hst
    have hrows : (db1.Transactions st1.q).map (keyOf Next)
        = (db2.Transactions st2.q).map (keyOf Next) := by
      rw [hst.1]; exact hdb st2.q
    obtain ⟨ha, hb⟩ := pageIter_agree db1 db2 Next all st1 st2 hst hrows
    rw [pagingLoop, pagingLoop]
    cases h1 : pageIter db1 Next all st1 with
    | mk e1 s1 =>
      cases h2 : pageIter db2 Next all st2 with
      | mk e2 s2 =>
        rw [h1, h2] at ha hb
        simp only at ha hb
        subst ha
        cases e1 with
        | none => exact ih s1 s2 hb
        | some e => exact ⟨rfl, hb⟩

theorem oneShot_agree (db1 db2 : IndexerDb) (Next : TxnRow → String) (q : TransactionFilter)
    (hdb : ∀ f, (db1.Transactions f).map (keyOf Next) = (db2.Transactions f).map (keyOf Next)) :
    oneShot db1 q = oneShot db2 q := by
  have h := congrArg (List.map (fun k : Nat × Int × String => (⟨k.1, k.2.1⟩ : roundIntra)))
    (hdb { q with Limit := 1000 })
  simp only [List.map_map] at h
  exact h

theorem txnRows_row_error (c : Codecs) (r : TxnRow) (post : List TxnRow)
    (hr : r.Error ≠ none) :
    ∀ (pre : List TxnRow) (count : Nat),
      (∀ x ∈ pre, x.Error = none ∧ c.decodeTxn x.TxnBytes = none ∧
        c.encodePanics x.TxnBytes = false) →
      txnRows c (pre ++ r :: post) count = Except.error (Proc.exited 1) := by
  intro pre
  induction pre with
  | nil =>
    intro count _
    cases he : r.Error with
    | none => exact absurd he hr
    | some e => simp [txnRows, he]
  | cons x rest ih =>
    intro count hpre
    obtain ⟨h1, h2, h3⟩ := hpre x (List.mem_cons_self x rest)
    rw [List.cons_append, txnRows]
    simp only [h1, h2, h3]
    exact ih _ (fun y hy => hpre y (List.mem_cons_of_mem x hy))

/-- Claim C10 -- the paging test does not depend on row errors.  Against two
stores whose streams agree row by row on Round, Intra and the value of Next(),
whatever the Error and the payload of the rows, testTxnPaging ends the same
way, with the same exitValue, pos, number of pages, one-shot sequence and page
queries.  Every row of the one-shot stream is recorded in all, with or without
an Error; in printTxnQuery the first row with an Error ends the process with
status 1, when the rows before it are decoded and encoded. -/
theorem testTxnPaging_ignores_row_errors (db1 db2 : IndexerDb) (Next : TxnRow → String)
    (q : TransactionFilter) (ev0 : Int)
    (hdb : ∀ f, (db1.Transactions f).map (keyOf Next) = (db2.Transactions f).map (keyOf Next)) :
    (testTxnPaging db1 Next q ev0).exitValue = (testTxnPaging db2 Next q ev0).exitValue ∧
    (testTxnPaging db1 Next q ev0).pos = (testTxnPaging db2 Next q ev0).pos ∧
    (testTxnPaging db1 Next q ev0).page = (testTxnPaging db2 Next q ev0).page ∧
    (testTxnPaging db1 Next q ev0).ending = (testTxnPaging db2 Next q ev0).ending ∧
    (testTxnPaging db1 Next q ev0).all = (testTxnPaging db2 Next q ev0).all ∧
    (testTxnPaging db1 Next q ev0).queries = (testTxnPaging db2 Next q ev0).queries ∧
    (testTxnPaging db1 Next q ev0).all = (db1.Transactions { q with Limit := 1000 }).map riOf ∧
    (∀ (c : Codecs) (f : TransactionFilter) (ev : Int) (pre : List TxnRow) (r : TxnRow)
      (post : List TxnRow), db1.Transactions f = pre ++ r :: post →
      (∀ x ∈ pre, x.Error = none ∧ c.decodeTxn x.TxnBytes = none ∧
        c.encodePanics x.TxnBytes = false) →
      r.Error ≠ none → printTxnQuery c db1 f ev = Proc.exited 1) := by
  have hall := oneShot_agree db1 db2 Next q hdb
  have hloop := pagingLoop_agree db1 db2 Next (oneShot db1 q) hdb ((oneShot db1 q).length + 1)
    (initState (firstQuery db1 q) ev0) (initState (firstQuery db1 q) ev0)
    ⟨rfl, rfl, rfl, rfl, rfl⟩
  have hrun : (loopRun db1 Next q ev0).1 = (loopRun db2 Next q ev0).1 ∧
      SameLocals (loopRun db1 Next q ev0).2 (loopRun db2 Next q ev0).2 := by
    have h2 : loopRun db2 Next q ev0 = pagingLoop db2 Next (oneShot db1 q)
        ((oneShot db1 q).length + 1) (initState (firstQuery db1 q) ev0) := by
      rw [loopRun, firstQuery, firstQuery, hall]
    rw [h2]
    exact hloop
  obtain ⟨he, _, hpos, hpage, hev, hqs⟩ := hrun
  have hexit : (testTxnPaging db1 Next q ev0).exitValue
      = (testTxnPaging db2 Next q ev0).exitValue := by
    show (match (loopRun db1 Next q ev0).1 with
      | LoopEnd.left => if (loopRun db1 Next q ev0).2.pos ≠ (oneShot db1 q).length then 1
          else (loopRun db1 Next q ev0).2.exitValue
      | _ => (loopRun db1 Next q ev0).2.exitValue)
      = (match (loopRun db2 Next q ev0).1 with
      | LoopEnd.left => if (loopRun db2 Next q ev0).2.pos ≠ (oneShot db2 q).length then 1
          else (loopRun db2 Next q ev0).2.exitValue
      | _ => (loopRun db2 Next q ev0).2.exitValue)
    rw [he, hpos, hev, hall]
  refine ⟨hexit, hpos, hpage, he, hall, hqs, rfl, ?_⟩
  intro c f ev pre r post hrows hpre hr
  rw [printTxnQuery, hrows, txnRows_row_error c r post hr pre 0 hpre]

/-! ## The paging test against a store that resumes -/

theorem slice_getElem (S : List TxnRow) (pos m j : Nat) (x : TxnRow)
    (h : ((S.drop pos).take m)[j]? = some x) : S[pos + j]? = some x ∧ j < m := by
  rw [List.getElem?_take] at h
  by_cases hj : j < m
  · rw [if_pos hj, List.getElem?_drop] at h
    exact ⟨h, hj⟩
  · rw [if_neg hj] at h
    cases h

theorem evAfter_slice (S : List TxnRow) (ev : Int) (pos m : Nat)
    (h : pos + m ≤ ((S.take 1000).map riOf).length) :
    evAfter ((S.take 1000).map riOf) ev (((S.drop pos).take m).enumFrom pos) = ev := by
  apply evAfter_eq_self
  rintro ⟨⟨i, x⟩, hmem, ri, hri, hdiff⟩
  obtain ⟨hle, hx⟩ := List.mk_mem_enumFrom_iff_le_and_getElem?_sub.mp hmem
  obtain ⟨hS, hj⟩ := slice_getElem S pos m (i - pos) x hx
  have hi : pos + (i - pos) = i := by omega
  rw [hi] at hS
  have hlen : ((S.take 1000).map riOf).length ≤ 1000 := by
    rw [List.length_map, List.length_take]; omega
  have hi2 : i < 1000 := by omega
  simp only [List.getElem?_map, List.getElem?_take, hi2, if_true, hS, Option.map_some'] at hri
  have hri2 : ri = riOf x := (Option.some.inj hri).symm
  subst hri2
  rcases hdiff with hd | hd
  · exact hd rfl
  · exact hd rfl

theorem lastTok_slice (Next : TxnRow → String) (S : List TxnRow) (t : String) (pos P : Nat)
    (hP : 0 < P) (h : pos + P ≤ S.length) :
    lastTok Next t ((S.drop pos).take P)
      = Next (S.get ⟨pos + P - 1, by omega⟩) := by
  have hlt : pos + P - 1 < S.length := by omega
  have hlen : ((S.drop pos).take P).length - 1 = P - 1 := by
    rw [List.length_take, List.length_drop]; omega
  have hget : ((S.drop pos).take P).getLast? = some (S.get ⟨pos + P - 1, hlt⟩) := by
    rw [List.getLast?_eq_getElem?, hlen, List.getElem?_take, if_pos (by omega),
      List.getElem?_drop]
    have e : pos + (P - 1) = pos + P - 1 := by omega
    rw [e, List.getElem?_eq_getElem hlt]
    rfl
  rw [lastTok, hget]

theorem ceilDiv_zero (P : Nat) (hP : 0 < P) : ceilDiv 0 P = 0 := by
  unfold ceilDiv
  exact Nat.div_eq_of_lt (by omega)

theorem ceilDiv_of_bounds (n P k : Nat) (h1 : k * P < n) (h2 : n ≤ (k + 1) * P) :
    ceilDiv n P = k + 1 := by
  unfold ceilDiv
  have e1 : (k + 1) * P = k * P + P := Nat.succ_mul k P
  have e2 : (k + 1 + 1) * P = k * P + P + P := by rw [Nat.succ_mul, Nat.succ_mul]
  apply Nat.div_eq_of_lt_le
  · omega
  · omega

theorem resumeInv_more (db : IndexerDb) (Next : TxnRow → String) (q : TransactionFilter)
    (S : List TxnRow) (P : Nat) (ev0 : Int) (hP : 0 < P) (hres : Resumes db Next q S)
    (st : PagingState)
    (hinv : ResumeInv db q S ((S.take 1000).map riOf) P ev0 st)
    (hlen : st.pos + (db.Transactions st.q).length < ((S.take 1000).map riOf).length) :
    ResumeInv db q S ((S.take 1000).map riOf) P ev0
      (afterRows Next ((S.take 1000).map riOf) st (db.Transactions st.q)
        (db.Transactions st.q)) := by
  have hn : ((S.take 1000).map riOf).length ≤ S.length := by
    rw [List.length_map, List.length_take]; omega
  have hrl : (db.Transactions st.q).length = min P (S.length - st.pos) := by
    rw [hinv.rows, List.length_take, List.length_drop]
  have hrP : (db.Transactions st.q).length = P := by omega
  obtain ⟨t, hq⟩ := hinv.shape
  have hlt : st.pos + P - 1 < S.length := by omega
  have hle : st.pos + P ≤ S.length := by omega
  have hqf : ∀ X : String, ({ st.q with NextToken := X } : TransactionFilter)
      = { q with Limit := P, NextToken := X } := by
    intro X; rw [hq]
  exact {
    evEq := by
      simp only [afterRows]
      rw [hinv.evEq, hinv.rows]
      exact evAfter_slice S ev0 st.pos P (by omega)
    posEq := by
      simp only [afterRows]
      rw [hrP, hinv.posEq, Nat.succ_mul]
    inRange := Or.inl (by simpa [afterRows] using hlen)
    rows := by
      simp only [afterRows]
      rw [hrP, hinv.rows, lastTok_slice Next S "" st.pos P hP hle, hqf]
      have h2 := hres.2 (st.pos + P - 1) hlt P hP
      have e : st.pos + P - 1 + 1 = st.pos + P := by omega
      rw [e] at h2
      exact h2
    shape := ⟨lastTok Next "" (db.Transactions st.q), hqf _⟩ }

theorem resumePost_empty (db : IndexerDb) (Next : TxnRow → String) (q : TransactionFilter)
    (S : List TxnRow) (P : Nat) (ev0 : Int) (hP : 0 < P) (st : PagingState)
    (hinv : ResumeInv db q S ((S.take 1000).map riOf) P ev0 st)
    (hrows : db.Transactions st.q = []) :
    ResumePost ((S.take 1000).map riOf) P ev0 LoopEnd.left
      (afterRows Next ((S.take 1000).map riOf) st [] []) := by
  have hn : ((S.take 1000).map riOf).length ≤ S.length := by
    rw [List.length_map, List.length_take]; omega
  have hrl : (db.Transactions st.q).length = min P (S.length - st.pos) := by
    rw [hinv.rows, List.length_take, List.length_drop]
  rw [hrows, List.length_nil] at hrl
  rcases hinv.inRange with h | ⟨h0, hp0, hg0⟩
  · omega
  · refine ⟨rfl, ?_, ?_, Or.inl ⟨h0, ?_⟩⟩
    · simp only [afterRows, List.length_nil]; omega
    · simp only [afterRows, List.enumFrom_nil, evAfter_nil]; exact hinv.evEq
    · simp only [afterRows]; omega

theorem resumePost_last (db : IndexerDb) (Next : TxnRow → String) (q : TransactionFilter)
    (S : List TxnRow) (P : Nat) (ev0 : Int) (st : PagingState)
    (hinv : ResumeInv db q S ((S.take 1000).map riOf) P ev0 st)
    (hp : st.pos < ((S.take 1000).map riOf).length)
    (hlen : ((S.take 1000).map riOf).length ≤ st.pos + (db.Transactions st.q).length) :
    ResumePost ((S.take 1000).map riOf) P ev0 LoopEnd.left
      (afterRows Next ((S.take 1000).map riOf) st
        ((db.Transactions st.q).take (((S.take 1000).map riOf).length - st.pos))
        ((db.Transactions st.q).take (((S.take 1000).map riOf).length - st.pos - 1))) := by
  have hrl : (db.Transactions st.q).length = min P (S.length - st.pos) := by
    rw [hinv.rows, List.length_take, List.length_drop]
  refine ⟨rfl, ?_, ?_, Or.inr ⟨st.page, rfl, ?_, ?_⟩⟩
  · simp only [afterRows, List.length_take]; omega
  · simp only [afterRows]
    rw [hinv.evEq, hinv.rows, List.take_take]
    exact evAfter_slice S ev0 st.pos _ (by omega)
  · rw [← hinv.posEq]; exact hp
  · rw [Nat.succ_mul, ← hinv.posEq]; omega

theorem resume_no_panic (db : IndexerDb) (q : TransactionFilter)
    (S : List TxnRow) (P : Nat) (ev0 : Int) (st : PagingState) (row : TxnRow)
    (rest : List TxnRow)
    (hinv : ResumeInv db q S ((S.take 1000).map riOf) P ev0 st)
    (hrows : db.Transactions st.q = row :: rest)
    (hp : ((S.take 1000).map riOf).length ≤ st.pos) : False := by
  have hrl : (db.Transactions st.q).length = min P (S.length - st.pos) := by
    rw [hinv.rows, List.length_take, List.length_drop]
  rw [hrows, List.length_cons] at hrl
  have hn : ((S.take 1000).map riOf).length = min 1000 S.length := by
    rw [List.length_map, List.length_take]
  rcases hinv.inRange with h | ⟨h0, hp0, _⟩
  · omega
  · omega

/-- Against a store that resumes over S from the start of q, the outer loop
is left with pos = len(all) and exitValue unchanged, after one page query when
all is empty and after k + 1 page queries with k P < len(all) ≤ (k + 1) P
otherwise. -/
theorem loopRun_resumes (db : IndexerDb) (Next : TxnRow → String) (q : TransactionFilter)
    (S : List TxnRow) (ev0 : Int) (hres : Resumes db Next q S) :
    oneShot db q = (S.take 1000).map riOf ∧
    ResumePost (oneShot db q) (pageLimit (oneShot db q)) ev0 (loopRun db Next q ev0).1
      (loopRun db Next q ev0).2 := by
  have hall : oneShot db q = (S.take 1000).map riOf := by
    rw [oneShot, hres.1 1000 (by omega)]
  refine ⟨hall, ?_⟩
  have hP : 0 < pageLimit (oneShot db q) := by unfold pageLimit; omega
  rw [loopRun]
  generalize hPdef : pageLimit (oneShot db q) = P at hP
  have hfq : firstQuery db q = { q with Limit := P } := by rw [firstQuery, hPdef]
  rw [hfq, hall]
  apply pagingLoop_rule db Next ((S.take 1000).map riOf)
    (ResumeInv db q S ((S.take 1000).map riOf) P ev0)
    (ResumePost ((S.take 1000).map riOf) P ev0)
  · intro st hinv _ hlen
    exact resumeInv_more db Next q S P ev0 hP hres st hinv hlen
  · intro st hinv hrows
    exact resumePost_empty db Next q S P ev0 hP st hinv hrows
  · intro st hinv hp hlen
    exact resumePost_last db Next q S P ev0 st hinv hp hlen
  · intro st row rest hinv hrows hp
    exact absurd (resume_no_panic db q S P ev0 st row rest hinv hrows hp) id
  · exact {
      evEq := rfl
      posEq := by simp [initState]
      inRange := by
        by_cases h0 : 0 < ((S.take 1000).map riOf).length
        · exact Or.inl h0
        · exact Or.inr ⟨by omega, rfl, rfl⟩
      rows := by
        simp only [initState, List.drop_zero]
        exact hres.1 P hP
      shape := ⟨q.NextToken, rfl⟩ }
  · simp only [initState]
    omega

theorem paginates_resumes_start (db : IndexerDb) (Next : TxnRow → String)
    (q : TransactionFilter) (S : List TxnRow) (hpag : Paginates db Next q S)
    (hq : q.NextToken = "") : Resumes db Next q S := by
  refine ⟨?_, hpag.2⟩
  intro L hL
  have e : ({ q with Limit := L } : TransactionFilter)
      = { q with Limit := L, NextToken := "" } := by rw [← hq]
  rw [e]
  exact hpag.1 L hL

theorem paginates_resumes_from (db : IndexerDb) (Next : TxnRow → String)
    (q : TransactionFilter) (S : List TxnRow) (hpag : Paginates db Next q S)
    (i : Nat) (h : i < S.length) (hq : q.NextToken = Next (S.get ⟨i, h⟩)) :
    Resumes db Next q (S.drop (i + 1)) := by
  constructor
  · intro L hL
    have e : ({ q with Limit := L } : TransactionFilter)
        = { q with Limit := L, NextToken := Next (S.get ⟨i, h⟩) } := by rw [← hq]
    rw [e]
    exact hpag.2 i h L hL
  · intro j hj L hL
    have hj2 : i + 1 + j < S.length := by
      rw [List.length_drop] at hj; omega
    have hget : (S.drop (i + 1)).get ⟨j, hj⟩ = S.get ⟨i + 1 + j, hj2⟩ := by
      simp [List.getElem_drop]
    rw [hget, hpag.2 (i + 1 + j) hj2 L hL, List.drop_drop, Nat.add_assoc (i + 1) j 1]

theorem testTxnPaging_resumes (db : IndexerDb) (Next : TxnRow → String)
    (q : TransactionFilter) (S : List TxnRow) (ev0 : Int) (hres : Resumes db Next q S) :
    (testTxnPaging db Next q ev0).ending = LoopEnd.left ∧
    (testTxnPaging db Next q ev0).exitValue = ev0 ∧
    (testTxnPaging db Next q ev0).pos = (testTxnPaging db Next q ev0).all.length ∧
    (testTxnPaging db Next q ev0).all = (S.take 1000).map riOf := by
  obtain ⟨hall, hleft, hpos, hev, _⟩ := loopRun_resumes db Next q S ev0 hres
  have hx := testTxnPaging_exitValue_left db Next q ev0 hleft
  rw [testTxnPaging_ending, testTxnPaging_pos, testTxnPaging_all]
  refine ⟨hleft, ?_, hpos, hall⟩
  rw [hx, if_neg (by simpa using hpos), hev]

/-- Claim C2, as amended -- a store that satisfies pagination equivalence
passes the paging test when the filter starts where the store can resume.  For
a filter q whose NextToken is empty or the token of a row of S, and a store
that paginates S (rows pairwise distinct in Round and Intra) under q,
testTxnPaging returns with exitValue unchanged and pos = len(all). -/
theorem paginating_store_passes (db : IndexerDb) (Next : TxnRow → String)
    (q : TransactionFilter) (S : List TxnRow) (ev0 : Int)
    (_hdistinct : (S.map riOf).Nodup) (hpag : Paginates db Next q S)
    (hstart : q.NextToken = "" ∨
      ∃ (i : Nat) (h : i < S.length), q.NextToken = Next (S.get ⟨i, h⟩)) :
    (testTxnPaging db Next q ev0).ending = LoopEnd.left ∧
    (testTxnPaging db Next q ev0).exitValue = ev0 ∧
    (testTxnPaging db Next q ev0).pos = (testTxnPaging db Next q ev0).all.length := by
  rcases hstart with hq | ⟨i, h, hq⟩
  · have hr := testTxnPaging_resumes db Next q S ev0
      (paginates_resumes_start db Next q S hpag hq)
    exact ⟨hr.1, hr.2.1, hr.2.2.1⟩
  · have hr := testTxnPaging_resumes db Next q (S.drop (i + 1)) ev0
      (paginates_resumes_from db Next q S hpag i h hq)
    exact ⟨hr.1, hr.2.1, hr.2.2.1⟩

theorem ledgerDb_paginates (m : Nat) (q : TransactionFilter) :
    Paginates (ledgerDb m) unaryNext q (ledger m) := by
  constructor
  · intro L hL
    have hL0 : L ≠ 0 := by omega
    simp [ledgerDb, hL0]
  · intro i h L hL
    have hL0 : L ≠ 0 := by omega
    simp [ledgerDb, hL0, unaryNext, ledger]

theorem ledger_nodup (m : Nat) : ((ledger m).map riOf).Nodup := by
  have h : (ledger m).map riOf = (List.range m).map (fun i => (⟨i, 0⟩ : roundIntra)) := by
    simp [ledger, riOf, Function.comp_def]
  rw [h]
  exact (List.nodup_range m).map (fun a b hab => by simpa using hab)

/-- Witness of C2 as amended: the sample store over five rows passes. -/
theorem paginating_store_passes_witness :
    ((ledger 5).map riOf).Nodup ∧
    Paginates (ledgerDb 5) unaryNext {} (ledger 5) ∧
    (testTxnPaging (ledgerDb 5) unaryNext {} 0).ending = LoopEnd.left ∧
    (testTxnPaging (ledgerDb 5) unaryNext {} 0).exitValue = 0 ∧
    (testTxnPaging (ledgerDb 5) unaryNext {} 0).pos
      = (testTxnPaging (ledgerDb 5) unaryNext {} 0).all.length :=
  ⟨ledger_nodup 5, ledgerDb_paginates 5 {},
    paginating_store_passes (ledgerDb 5) unaryNext {} (ledger 5) 0
      (ledger_nodup 5) (ledgerDb_paginates 5 {}) (Or.inl rfl)⟩

/-- Counterexample to C2 as stated: staleDb paginates the empty sequence under
staleQuery, and testTxnPaging sets exitValue to 1. -/
theorem paginating_store_stale_token :
    Paginates staleDb unaryNext staleQuery [] ∧
    (([] : List TxnRow).map riOf).Nodup ∧
    (testTxnPaging staleDb unaryNext staleQuery 0).exitValue = 1 := by
  refine ⟨⟨?_, ?_⟩, List.nodup_nil, ?_⟩
  · intro L _
    simp [staleDb]
  · intro i h
    simp at h
  · decide

theorem ledgerDb_resumes (m : Nat) : Resumes (ledgerDb m) unaryNext {} (ledger m) :=
  paginates_resumes_start (ledgerDb m) unaryNext {} (ledger m) (ledgerDb_paginates m {}) rfl

/-- Claim C7, as amended -- the page size forces continuation.  The page size
P = len(all)/3 + 1 is at least 1, 3 P exceeds len(all), and P is below len(all)
from 2 on.  Against a store that resumes, testTxnPaging issues
max(1, ceil(len(all)/P)) page queries: between 2 and 3 when len(all) is at
least 2, and exactly 1 when len(all) is 0 or 1. -/
theorem pageLimit_forces_continuation (db : IndexerDb) (Next : TxnRow → String)
    (q : TransactionFilter) (S : List TxnRow) (ev0 : Int) (hres : Resumes db Next q S) :
    (∀ all : List roundIntra, 1 ≤ pageLimit all ∧ all.length < 3 * pageLimit all ∧
      (2 ≤ all.length → pageLimit all < all.length)) ∧
    (testTxnPaging db Next q ev0).limit = pageLimit (testTxnPaging db Next q ev0).all ∧
    (testTxnPaging db Next q ev0).ending = LoopEnd.left ∧
    (testTxnPaging db Next q ev0).queries.length = (testTxnPaging db Next q ev0).page ∧
    (testTxnPaging db Next q ev0).page
      = max 1 (ceilDiv (testTxnPaging db Next q ev0).all.length
          (testTxnPaging db Next q ev0).limit) ∧
    (2 ≤ (testTxnPaging db Next q ev0).all.length →
      2 ≤ (testTxnPaging db Next q ev0).page ∧ (testTxnPaging db Next q ev0).page ≤ 3) ∧
    ((testTxnPaging db Next q ev0).all.length ≤ 1 →
      (testTxnPaging db Next q ev0).page = 1) := by
  obtain ⟨_, hleft, _, _, hpage⟩ := loopRun_resumes db Next q S ev0 hres
  have hpost := loopRun_post db Next q ev0
  rw [testTxnPaging_ending, testTxnPaging_page, testTxnPaging_all, testTxnPaging_limit,
    testTxnPaging_queries]
  have hP : pageLimit (oneShot db q) = (oneShot db q).length / 3 + 1 := rfl
  refine ⟨?_, rfl, hleft, (hpost.pageEq hleft).symm, ?_, ?_, ?_⟩
  · intro all
    unfold pageLimit
    refine ⟨by omega, by omega, fun h => by omega⟩
  · rcases hpage with ⟨h0, h1⟩ | ⟨k, hk, hlo, hhi⟩
    · rw [h0, h1, ceilDiv_zero _ (by rw [hP]; omega)]
      rfl
    · rw [hk, ceilDiv_of_bounds _ _ k hlo hhi]
      omega
  · intro hn
    rcases hpage with ⟨h0, _⟩ | ⟨k, hk, hlo, hhi⟩
    · omega
    · rw [hk]
      have h1 : 1 ≤ k := by
        by_contra hc
        have hk0 : k = 0 := by omega
        rw [hk0, hP] at hhi
        omega
      have h2 : k ≤ 2 := by
        by_contra hc
        have h3 : 3 * pageLimit (oneShot db q) ≤ k * pageLimit (oneShot db q) :=
          Nat.mul_le_mul_right _ (by omega)
        rw [hP] at h3 hlo
        omega
      omega
  · intro hn
    rcases hpage with ⟨_, h1⟩ | ⟨k, hk, hlo, _⟩
    · exact h1
    · rw [hk]
      have hn1 : (oneShot db q).length = 1 := by omega
      have hP1 : pageLimit (oneShot db q) = 1 := by rw [hP, hn1]
      rw [hP1] at hlo
      omega

/-- Witness of C7 as amended: five rows are fetched in three pages of two. -/
theorem pageLimit_forces_continuation_witness :
    Resumes (ledgerDb 5) unaryNext {} (ledger 5) ∧
    (testTxnPaging (ledgerDb 5) unaryNext {} 0).limit = 2 ∧
    (testTxnPaging (ledgerDb 5) unaryNext {} 0).page = 3 ∧
    (testTxnPaging (ledgerDb 5) unaryNext {} 0).page
      = max 1 (ceilDiv (testTxnPaging (ledgerDb 5) unaryNext {} 0).all.length
          (testTxnPaging (ledgerDb 5) unaryNext {} 0).limit) :=
  ⟨ledgerDb_resumes 5, by decide, by decide,
    (pageLimit_forces_continuation (ledgerDb 5) unaryNext {} (ledger 5) 0
      (ledgerDb_resumes 5)).2.2.2.2.1⟩

/-- Counterexample to C7 as stated: against the empty sample store, which
resumes, len(all) is 0 and one page query is issued, while ceil(0/P) is 0. -/
theorem pageLimit_empty_store :
    Resumes (ledgerDb 0) unaryNext {} (ledger 0) ∧
    (testTxnPaging (ledgerDb 0) unaryNext {} 0).all.length = 0 ∧
    (testTxnPaging (ledgerDb 0) unaryNext {} 0).page = 1 ∧
    ceilDiv (testTxnPaging (ledgerDb 0) unaryNext {} 0).all.length
      (testTxnPaging (ledgerDb 0) unaryNext {} 0).limit = 0 :=
  ⟨ledgerDb_resumes 0, by decide, by decide, by decide⟩

/-! ## The limit check, the one-shot sequence, and sample runs -/

theorem assetRows_clean (c : Codecs) :
    ∀ (rows : List AssetRow) (count : Nat), CleanAssets c rows → count < 2 ^ 64 →
      assetRows c rows count = some ((count + rows.length) % 2 ^ 64) := by
  intro rows
  induction rows with
  | nil =>
    intro count _ hc
    simp only [assetRows, List.length_nil, Nat.add_zero, Nat.mod_eq_of_lt hc]
  | cons ar rest ih =>
    intro count hclean _
    obtain ⟨h1, h2⟩ := hclean ar (List.mem_cons_self ar rest)
    rw [assetRows]
    simp only [h1, h2]
    rw [ih _ (fun x hx => hclean x (List.mem_cons_of_mem ar hx))
      (Nat.mod_lt _ (by norm_num)), Nat.mod_add_mod, List.length_cons,
      Nat.add_assoc, Nat.add_comm 1]

theorem accountRows_clean (c : Codecs) :
    ∀ (rows : List AccountRow) (count : Nat), CleanAccounts c rows → count < 2 ^ 64 →
      accountRows c rows count = some ((count + rows.length) % 2 ^ 64) := by
  intro rows
  induction rows with
  | nil =>
    intro count _ hc
    simp only [accountRows, List.length_nil, Nat.add_zero, Nat.mod_eq_of_lt hc]
  | cons ar rest ih =>
    intro count hclean _
    obtain ⟨h1, h2⟩ := hclean ar (List.mem_cons_self ar rest)
    rw [accountRows]
    simp only [h1, h2]
    rw [ih _ (fun x hx => hclean x (List.mem_cons_of_mem ar hx))
      (Nat.mod_lt _ (by norm_num)), Nat.mod_add_mod, List.length_cons,
      Nat.add_assoc, Nat.add_comm 1]

theorem txnRows_clean (c : Codecs) :
    ∀ (rows : List TxnRow) (count : Nat), CleanTxns c rows → count < 2 ^ 64 →
      txnRows c rows count = Except.ok ((count + rows.length) % 2 ^ 64) := by
  intro rows
  induction rows with
  | nil =>
    intro count _ hc
    simp only [txnRows, List.length_nil, Nat.add_zero, Nat.mod_eq_of_lt hc]
  | cons r rest ih =>
    intro count hclean _
    obtain ⟨h1, h2, h3⟩ := hclean r (List.mem_cons_self r rest)
    rw [txnRows]
    simp only [h1, h2, h3, Bool.false_eq_true, if_false]
    rw [ih _ (fun x hx => hclean x (List.mem_cons_of_mem r hx))
      (Nat.mod_lt _ (by norm_num)), Nat.mod_add_mod, List.length_cons,
      Nat.add_assoc, Nat.add_comm 1]

theorem printAssetQuery_clean (c : Codecs) (db : IndexerDb) (q : AssetsQuery) (ev : Int)
    (hclean : CleanAssets c (db.Assets q)) (hlen : (db.Assets q).length < 2 ^ 64) :
    printAssetQuery c db q ev =
      Proc.returned (if q.Limit ≠ 0 ∧ (db.Assets q).length ≠ q.Limit then 1 else ev) := by
  rw [printAssetQuery, assetRows_clean c _ 0 hclean (by norm_num), Nat.zero_add,
    Nat.mod_eq_of_lt hlen]
  by_cases h : q.Limit ≠ 0 ∧ q.Limit ≠ (db.Assets q).length
  · have h2 : q.Limit ≠ 0 ∧ (db.Assets q).length ≠ q.Limit := ⟨h.1, fun e => h.2 e.symm⟩
    simp only [if_pos h, if_pos h2]
  · have h2 : ¬ (q.Limit ≠ 0 ∧ (db.Assets q).length ≠ q.Limit) :=
      fun e => h ⟨e.1, fun e2 => e.2 e2.symm⟩
    simp only [if_neg h, if_neg h2]

theorem printAccountQuery_clean (c : Codecs) (db : IndexerDb) (q : AccountQueryOptions)
    (ev : Int) (hclean : CleanAccounts c (db.GetAccounts q))
    (hlen : (db.GetAccounts q).length < 2 ^ 64) :
    printAccountQuery c db q ev =
      Proc.returned (if q.Limit ≠ 0 ∧ (db.GetAccounts q).length ≠ q.Limit then 1 else ev) := by
  rw [printAccountQuery, accountRows_clean c _ 0 hclean (by norm_num), Nat.zero_add,
    Nat.mod_eq_of_lt hlen]
  by_cases h : q.Limit ≠ 0 ∧ q.Limit ≠ (db.GetAccounts q).length
  · have h2 : q.Limit ≠ 0 ∧ (db.GetAccounts q).length ≠ q.Limit :=
      ⟨h.1, fun e => h.2 e.symm⟩
    simp only [if_pos h, if_pos h2]
  · have h2 : ¬ (q.Limit ≠ 0 ∧ (db.GetAccounts q).length ≠ q.Limit) :=
      fun e => h ⟨e.1, fun e2 => e.2 e2.symm⟩
    simp only [if_neg h, if_neg h2]

theorem printTxnQuery_clean (c : Codecs) (db : IndexerDb) (q : TransactionFilter) (ev : Int)
    (hclean : CleanTxns c (db.Transactions q)) (hlen : (db.Transactions q).length < 2 ^ 64) :
    printTxnQuery c db q ev =
      Proc.returned (if q.Limit ≠ 0 ∧ (db.Transactions q).length ≠ q.Limit then 1 else ev) := by
  rw [printTxnQuery, txnRows_clean c _ 0 hclean (by norm_num), Nat.zero_add,
    Nat.mod_eq_of_lt hlen]
  by_cases h : q.Limit ≠ 0 ∧ q.Limit ≠ (db.Transactions q).length
  · have h2 : q.Limit ≠ 0 ∧ (db.Transactions q).length ≠ q.Limit :=
      ⟨h.1, fun e => h.2 e.symm⟩
    simp only [if_pos h, if_pos h2]
  · have h2 : ¬ (q.Limit ≠ 0 ∧ (db.Transactions q).length ≠ q.Limit) :=
      fun e => h ⟨e.1, fun e2 => e.2 e2.symm⟩
    simp only [if_neg h, if_neg h2]

/-- Claim C3 -- the limit check of the three print-query operations.  When no
row carries an Error and no decode or marshal step fails, on a stream of
fewer than 2^64 rows (count is a uint64), each operation returns, with
exitValue 1 if q.Limit is not 0 and the number of rows differs from q.Limit,
and with exitValue unchanged otherwise, so always unchanged when Limit is 0. -/
theorem print_limit_check (c : Codecs) (db : IndexerDb) (ev : Int) :
    (∀ q : AssetsQuery, CleanAssets c (db.Assets q) → (db.Assets q).length < 2 ^ 64 →
      printAssetQuery c db q ev =
        Proc.returned (if q.Limit ≠ 0 ∧ (db.Assets q).length ≠ q.Limit then 1 else ev)) ∧
    (∀ q : AccountQueryOptions, CleanAccounts c (db.GetAccounts q) →
      (db.GetAccounts q).length < 2 ^ 64 →
      printAccountQuery c db q ev =
        Proc.returned (if q.Limit ≠ 0 ∧ (db.GetAccounts q).length ≠ q.Limit then 1 else ev)) ∧
    (∀ q : TransactionFilter, CleanTxns c (db.Transactions q) →
      (db.Transactions q).length < 2 ^ 64 →
      printTxnQuery c db q ev =
        Proc.returned (if q.Limit ≠ 0 ∧ (db.Transactions q).length ≠ q.Limit then 1 else ev)) ∧
    (∀ q : TransactionFilter, q.Limit = 0 → CleanTxns c (db.Transactions q) →
      (db.Transactions q).length < 2 ^ 64 → printTxnQuery c db q ev = Proc.returned ev) :=
  ⟨fun q h1 h2 => printAssetQuery_clean c db q ev h1 h2,
    fun q h1 h2 => printAccountQuery_clean c db q ev h1 h2,
    fun q h1 h2 => printTxnQuery_clean c db q ev h1 h2,
    fun q h0 h1 h2 => by
      rw [printTxnQuery_clean c db q ev h1 h2, if_neg (fun h => h.1 h0)]⟩

theorem ledgerDb_cleanTxns (m : Nat) (f : TransactionFilter) :
    CleanTxns plainCodecs ((ledgerDb m).Transactions f) := by
  intro x hx
  refine ⟨?_, rfl, rfl⟩
  have hmem : x ∈ ledger m := by
    simp only [ledgerDb] at hx
    split at hx
    · exact List.mem_of_mem_drop hx
    · exact List.mem_of_mem_drop (List.mem_of_mem_take hx)
  simp only [ledger, List.mem_map] at hmem
  obtain ⟨i, _, hi⟩ := hmem
  rw [← hi]

/-- Witness of C3: two rows for Limit 2 leave exitValue, one row sets it. -/
theorem print_limit_check_witness :
    CleanTxns plainCodecs ((ledgerDb 5).Transactions { Limit := 2 }) ∧
    ((ledgerDb 5).Transactions { Limit := 2 }).length < 2 ^ 64 ∧
    printTxnQuery plainCodecs (ledgerDb 5) { Limit := 2 } 0 = Proc.returned 0 ∧
    printTxnQuery plainCodecs (ledgerDb 1) { Limit := 2 } 0 = Proc.returned 1 :=
  ⟨ledgerDb_cleanTxns 5 _, by decide,
    ((print_limit_check plainCodecs (ledgerDb 5) 0).2.2.1 { Limit := 2 }
      (ledgerDb_cleanTxns 5 _) (by decide)).trans (by decide),
    ((print_limit_check plainCodecs (ledgerDb 1) 0).2.2.1 { Limit := 2 }
      (ledgerDb_cleanTxns 1 _) (by decide)).trans (by decide)⟩

/-- Claim C4, as amended -- the limit check accepts a full page.  For a Limit
L with 0 < L < 2^64 and T matching rows, an error-free stream of min(L, T)
rows leaves exitValue unchanged in each print operation when L ≤ T, that is
when the stream has exactly L rows; when T < L the operation sets exitValue
to 1. -/
theorem limit_check_accepts_full_page (c : Codecs) (db : IndexerDb) (ev : Int) (L T : Nat)
    (hL : 0 < L) (hfit : L < 2 ^ 64) :
    (∀ q : TransactionFilter, q.Limit = L → CleanTxns c (db.Transactions q) →
      (db.Transactions q).length = min L T →
      (L ≤ T → printTxnQuery c db q ev = Proc.returned ev) ∧
      (T < L → printTxnQuery c db q ev = Proc.returned 1)) ∧
    (∀ q : AssetsQuery, q.Limit = L → CleanAssets c (db.Assets q) →
      (db.Assets q).length = min L T →
      (L ≤ T → printAssetQuery c db q ev = Proc.returned ev) ∧
      (T < L → printAssetQuery c db q ev = Proc.returned 1)) ∧
    (∀ q : AccountQueryOptions, q.Limit = L → CleanAccounts c (db.GetAccounts q) →
      (db.GetAccounts q).length = min L T →
      (L ≤ T → printAccountQuery c db q ev = Proc.returned ev) ∧
      (T < L → printAccountQuery c db q ev = Proc.returned 1)) := by
  refine ⟨?_, ?_, ?_⟩
  · intro q hq hclean hlen
    rw [printTxnQuery_clean c db q ev hclean (by omega), hq, hlen]
    constructor
    · intro h
      rw [if_neg (by omega)]
    · intro h
      rw [if_pos (by omega)]
  · intro q hq hclean hlen
    rw [printAssetQuery_clean c db q ev hclean (by omega), hq, hlen]
    constructor
    · intro h
      rw [if_neg (by omega)]
    · intro h
      rw [if_pos (by omega)]
  · intro q hq hclean hlen
    rw [printAccountQuery_clean c db q ev hclean (by omega), hq, hlen]
    constructor
    · intro h
      rw [if_neg (by omega)]
    · intro h
      rw [if_pos (by omega)]

/-- Witness of C4 as amended: Limit 2 against five matching rows. -/
theorem limit_check_accepts_full_page_witness :
    (0 < 2 ∧ 2 < 2 ^ 64) ∧
    CleanTxns plainCodecs ((ledgerDb 5).Transactions { TypeEnum := 2, Limit := 2 }) ∧
    ((ledgerDb 5).Transactions { TypeEnum := 2, Limit := 2 }).length = min 2 5 ∧
    printTxnQuery plainCodecs (ledgerDb 5) { TypeEnum := 2, Limit := 2 } 0 = Proc.returned 0 :=
  ⟨by decide, ledgerDb_cleanTxns 5 _, by decide,
    ((limit_check_accepts_full_page plainCodecs (ledgerDb 5) 0 2 5 (by decide) (by decide)).1
      { TypeEnum := 2, Limit := 2 } rfl (ledgerDb_cleanTxns 5 _) (by decide)).1 (by decide)⟩

/-- Counterexample to C4 as stated: with Limit 2 and one matching row, the
error-free stream of min(2, 1) = 1 row makes printTxnQuery set exitValue to 1. -/
theorem limit_check_short_stream :
    CleanTxns plainCodecs ((ledgerDb 1).Transactions { TypeEnum := 2, Limit := 2 }) ∧
    ((ledgerDb 1).Transactions { TypeEnum := 2, Limit := 2 }).length = min 2 1 ∧
    printTxnQuery plainCodecs (ledgerDb 1) { TypeEnum := 2, Limit := 2 } 0 = Proc.returned 1 :=
  ⟨ledgerDb_cleanTxns 1 _, by decide, by decide⟩

/-- Claim C5, as amended -- the reference sequence of the paging test is the
result of one call with Limit = 1000 under the same filter.  For a store that
honours Limit over the matching rows S, all holds the first min(1000, len(S))
of them, and it is the unbounded result exactly when S has at most 1000 rows. -/
theorem oneShot_is_bounded (db : IndexerDb) (Next : TxnRow → String)
    (q : TransactionFilter) (ev0 : Int) :
    (testTxnPaging db Next q ev0).all = (db.Transactions { q with Limit := 1000 }).map riOf ∧
    (∀ S, HonoursLimit db q S →
      (testTxnPaging db Next q ev0).all = (S.take 1000).map riOf ∧
      (testTxnPaging db Next q ev0).all.length = min 1000 S.length ∧
      ((testTxnPaging db Next q ev0).all = (db.Transactions { q with Limit := 0 }).map riOf
        ↔ S.length ≤ 1000)) := by
  refine ⟨rfl, ?_⟩
  intro S hS
  have h1000 : db.Transactions { q with Limit := 1000 } = S.take 1000 := by
    rw [hS 1000]; rfl
  have h0 : db.Transactions { q with Limit := 0 } = S := by
    rw [hS 0]; rfl
  have hall : (testTxnPaging db Next q ev0).all = (S.take 1000).map riOf := by
    rw [testTxnPaging_all, oneShot, h1000]
  refine ⟨hall, ?_, ?_⟩
  · rw [hall, List.length_map, List.length_take]
  · rw [hall, h0]
    constructor
    · intro h
      have hl := congrArg List.length h
      rw [List.length_map, List.length_map, List.length_take] at hl
      omega
    · intro h
      rw [List.take_of_length_le h]

theorem ledgerDb_honoursLimit (m : Nat) : HonoursLimit (ledgerDb m) {} (ledger m) := by
  intro L
  by_cases hL : L = 0
  · simp [ledgerDb, hL]
  · simp [ledgerDb, hL]

/-- Witness of C5 as amended: over five rows the one-shot result is complete. -/
theorem oneShot_is_bounded_witness :
    HonoursLimit (ledgerDb 5) {} (ledger 5) ∧
    (testTxnPaging (ledgerDb 5) unaryNext {} 0).all.length = min 1000 (ledger 5).length :=
  ⟨ledgerDb_honoursLimit 5,
    ((oneShot_is_bounded (ledgerDb 5) unaryNext {} 0).2 (ledger 5)
      (ledgerDb_honoursLimit 5)).2.1⟩

/-- Counterexample to C5 as stated: the sample store over 1001 rows honours
Limit and yields 1001 rows for Limit 0, and all has 1000 of them. -/
theorem oneShot_misses_rows :
    HonoursLimit (ledgerDb 1001) {} (ledger 1001) ∧
    ((ledgerDb 1001).Transactions { Limit := 0 }).length = 1001 ∧
    (testTxnPaging (ledgerDb 1001) unaryNext {} 0).all.length = 1000 ∧
    (testTxnPaging (ledgerDb 1001) unaryNext {} 0).all
      ≠ ((ledgerDb 1001).Transactions { Limit := 0 }).map riOf := by
  have h0 : ((ledgerDb 1001).Transactions { Limit := 0 }).length = 1001 := by
    simp [ledgerDb, ledger]
  have h1 : (testTxnPaging (ledgerDb 1001) unaryNext {} 0).all.length = 1000 := by
    rw [testTxnPaging_all]
    simp [oneShot, ledgerDb, ledger]
  refine ⟨ledgerDb_honoursLimit 1001, h0, h1, ?_⟩
  intro h
  have hl := congrArg List.length h
  rw [h1, List.length_map, h0] at hl
  omega

/-- Witness of C1: against shortDb the pages come up short of the three rows
of the one-shot result, and exitValue is set to 1. -/
theorem testTxnPaging_detects_witness :
    (0 < (oneShot shortDb {}).length ∨
      shortDb.Transactions { ({} : TransactionFilter) with
        Limit := pageLimit (oneShot shortDb {}) } = []) ∧
    (testTxnPaging shortDb unaryNext {} 0).exitValue = 1 :=
  ⟨Or.inl (by decide),
    (testTxnPaging_detects shortDb unaryNext {} 0 (Or.inl (by decide))).2.2.1
      (Or.inr (by decide))⟩

/-- Witness of C6: the first page query over five rows has Limit 5/3 + 1. -/
theorem testTxnPaging_token_feedback_witness :
    (testTxnPaging (ledgerDb 5) unaryNext {} 0).queries.head? =
      some { ({} : TransactionFilter) with
        Limit := (testTxnPaging (ledgerDb 5) unaryNext {} 0).all.length / 3 + 1 } :=
  (testTxnPaging_token_feedback (ledgerDb 5) unaryNext {} 0).1

/-- Witness of C8: over five rows the loop is left within five page queries. -/
theorem pagingLoop_terminates_witness :
    (0 < (oneShot (ledgerDb 5) {}).length ∨
      (ledgerDb 5).Transactions { ({} : TransactionFilter) with
        Limit := pageLimit (oneShot (ledgerDb 5) {}) } = []) ∧
    (testTxnPaging (ledgerDb 5) unaryNext {} 0).ending = LoopEnd.left ∧
    (testTxnPaging (ledgerDb 5) unaryNext {} 0).page
      ≤ max (testTxnPaging (ledgerDb 5) unaryNext {} 0).all.length 1 :=
  ⟨Or.inl (by decide),
    (pagingLoop_terminates (ledgerDb 5) unaryNext {} 0 (Or.inl (by decide))).2.1,
    (pagingLoop_terminates (ledgerDb 5) unaryNext {} 0 (Or.inl (by decide))).2.2.2.1⟩

/-- Witness of C9: over five rows every index is in range. -/
theorem testTxnPaging_index_safe_witness :
    0 < (testTxnPaging (ledgerDb 5) unaryNext {} 0).all.length ∧
    (testTxnPaging (ledgerDb 5) unaryNext {} 0).ending = LoopEnd.left ∧
    ∀ a ∈ (testTxnPaging (ledgerDb 5) unaryNext {} 0).accesses,
      a.1 < (testTxnPaging (ledgerDb 5) unaryNext {} 0).all.length :=
  ⟨by decide, (testTxnPaging_index_safe (ledgerDb 5) unaryNext {} 0).1 (by decide)⟩

theorem failingDb_agrees (m : Nat) (f : TransactionFilter) :
    ((ledgerDb m).Transactions f).map (keyOf unaryNext)
      = ((failingDb m).Transactions f).map (keyOf unaryNext) := by
  simp [failingDb, List.map_map, keyOf, unaryNext, Function.comp_def]

/-- Witness of C10: the sample store and the store whose rows all carry an
Error give the same exitValue, and printTxnQuery exits on the latter. -/
theorem testTxnPaging_ignores_row_errors_witness :
    (∀ f, ((failingDb 5).Transactions f).map (keyOf unaryNext)
      = ((ledgerDb 5).Transactions f).map (keyOf unaryNext)) ∧
    (testTxnPaging (failingDb 5) unaryNext {} 0).exitValue
      = (testTxnPaging (ledgerDb 5) unaryNext {} 0).exitValue ∧
    printTxnQuery plainCodecs (failingDb 5) { Limit := 1 } 0 = Proc.exited 1 :=
  ⟨fun f => (failingDb_agrees 5 f).symm,
    (testTxnPaging_ignores_row_errors (failingDb 5) (ledgerDb 5) unaryNext {} 0
      (fun f => (failingDb_agrees 5 f).symm)).1,
    (testTxnPaging_ignores_row_errors (failingDb 5) (ledgerDb 5) unaryNext {} 0
      (fun f => (failingDb_agrees 5 f).symm)).2.2.2.2.2.2.2 plainCodecs { Limit := 1 } 0 []
      { Round := 0, Intra := 0, TxnBytes := [1], Error := some "row error" } [] (by decide)
      (by intro x hx; cases hx) (by decide)⟩

end Idbtest
